import Mathlib

/-!
Shallow embedding of `src/maze.py` (PyMaze): the grid generator
(`Maze.generate_maze`), the stack-based depth-first solver (`Maze.solve`
with its helper `Maze.find_next_step`), and the interactive single-step
movement primitive (`Maze.get_new_coordinates`).

Conventions of the embedding:
* A grid is a function `Loc → Nat`; the Python list-of-lists
  `self.maze[x][y]` becomes application `g (x, y)`, and an in-place
  assignment becomes a pointwise functional `update`.
* Python's global `random()` stream is modelled as an explicit stream
  `rand : Nat → Rat` of draws together with a running index, so that a
  fixed seed corresponds to a fixed stream.
* Python `while` loops become fuel-indexed recursion; running out of fuel
  is a distinguished result so that non-termination claims are statable.
* `coinor.blimpy.Stack` is a LIFO; it is modelled as a `List` with push at
  the head.  Popping an empty stack is an error in the library, so the
  state where `solve` executes `self.path.pop()` on an empty stack is
  modelled as the distinguished `stackError` outcome.
-/

namespace PyMaze

/-- A coordinate pair `(x, y)`, i.e. `(row, col)`: `self.maze[x][y]`. -/
abbrev Loc := Int × Int

/-- The maze as a total map from coordinates to cell values. -/
abbrev Grid := Loc → Nat

/-- `EMPTY = 0`: empty (unexplored) cell. -/
def EMPTY : Nat := 0

/-- `OBSTACLE = 1`: cell with an obstacle. -/
def OBSTACLE : Nat := 1

/-- `ON_PATH = 2`: cell that is on the path. -/
def ON_PATH : Nat := 2

/-- `EXPLORED = 3`: cell that has been explored, but is not on the path. -/
def EXPLORED : Nat := 3

/-- `ROBOT = 4`: cell the robot is in (the spec's `Occupied`). -/
def ROBOT : Nat := 4

/-- A search direction, mirroring the Python dicts with keys `x` and `y`. -/
structure Direction where
  x : Int
  y : Int
deriving DecidableEq, Repr

/-- `UP = {'x': -1, 'y': 0}`. -/
def UP : Direction := ⟨-1, 0⟩

/-- `DOWN = {'x': 1, 'y': 0}`. -/
def DOWN : Direction := ⟨1, 0⟩

/-- `RIGHT = {'x': 0, 'y': 1}`. -/
def RIGHT : Direction := ⟨0, 1⟩

/-- `LEFT = {'x': 0, 'y': -1}`. -/
def LEFT : Direction := ⟨0, -1⟩

/-- `SEARCH_ORDER = [DOWN, RIGHT, UP, LEFT]`: order in which to try directions. -/
def SEARCH_ORDER : List Direction := [DOWN, RIGHT, UP, LEFT]

/-- Functional in-place assignment `maze[l] = v`. -/
def update (g : Grid) (l : Loc) (v : Nat) : Grid :=
  fun l2 => if l2 = l then v else g l2

/-- The Python bounds test `0 <= l[0] < dimx and 0 <= l[1] < dimy`. -/
abbrev inBounds (dimx dimy : Int) (l : Loc) : Prop :=
  0 ≤ l.1 ∧ l.1 < dimx ∧ 0 ≤ l.2 ∧ l.2 < dimy

/-- The `for direction in SEARCH_ORDER` loop body of `Maze.find_next_step`:
scan a list of directions, returning the first in-bounds `EMPTY` neighbor. -/
def find_first (maze : Grid) (dimx dimy : Int) (loc : Loc) :
    List Direction → Option Loc
  | [] => none
  | d :: rest =>
    let nl : Loc := (loc.1 + d.x, loc.2 + d.y)
    if inBounds dimx dimy nl ∧ maze nl = EMPTY then some nl
    else find_first maze dimx dimy loc rest

/-- `Maze.find_next_step`: search `SEARCH_ORDER` for a place to go; on
success the cell moved to is assigned `ROBOT` in the maze (the method
mutates `self.maze` before returning the new location). -/
def find_next_step (maze : Grid) (dimx dimy : Int) (loc : Loc) :
    Option Loc × Grid :=
  match find_first maze dimx dimy loc SEARCH_ORDER with
  | some nl => (some nl, update maze nl ROBOT)
  | none => (none, maze)

/-- The mutable state of `Maze.solve`: `self.maze`, `self.location`, and
the backtracking stack `self.path` (head = top of stack). -/
structure SolveState where
  maze : Grid
  location : Loc
  path : List Loc

/-- Outcome of one iteration of the `while` loop in `Maze.solve`. -/
inductive StepResult where
  | next (s : SolveState)
  | done (s : SolveState)
  | emptyStackPop (s : SolveState)

/-- The termination test at the bottom of the `solve` loop:
`if self.maze[0][0] == EXPLORED or self.location == (dimx-1, dimy-1):
self.path.push(self.location); done = True`. -/
def endCheck (dimx dimy : Int) (s : SolveState) : StepResult :=
  if s.maze (0, 0) = EXPLORED ∨ s.location = (dimx - 1, dimy - 1) then
    .done { s with path := s.location :: s.path }
  else
    .next s

/-- One iteration of the `while` loop of `Maze.solve` (silent mode, so the
pygame branches are no-ops).  If `find_next_step` found no move, the
current cell is marked `EXPLORED` and the stack is popped — popping an
empty stack is the `emptyStackPop` error outcome; otherwise the previous
cell is marked `ON_PATH` and pushed, and the robot moves on. -/
def solveStep (dimx dimy : Int) (s : SolveState) : StepResult :=
  match find_next_step s.maze dimx dimy s.location with
  | (none, m) =>
    let m1 := update m s.location EXPLORED
    match s.path with
    | [] => .emptyStackPop { s with maze := m1 }
    | l :: rest => endCheck dimx dimy ⟨update m1 l ROBOT, l, rest⟩
  | (some nl, m) =>
    endCheck dimx dimy ⟨update m s.location ON_PATH, nl, s.location :: s.path⟩

/-- Result of running `Maze.solve` to completion. -/
inductive SolveResult where
  | ok (path : List Loc) (maze : Grid)
  | stackError (maze : Grid)
  | outOfFuel

/-- Fuel-indexed unfolding of the `while eventType != QUIT and not done`
loop of `Maze.solve` (silent mode: `eventType` stays `None`). -/
def solveLoop (dimx dimy : Int) : Nat → SolveState → SolveResult
  | 0, _ => .outOfFuel
  | fuel + 1, s =>
    match solveStep dimx dimy s with
    | .done s2 => .ok s2.path s2.maze
    | .emptyStackPop s2 => .stackError s2.maze
    | .next s2 => solveLoop dimx dimy fuel s2

/-- The state after the prologue of `Maze.solve`:
`self.location = (0, 0); self.maze[0][0] = ROBOT`, stack empty. -/
def initState (maze : Grid) : SolveState :=
  ⟨update maze (0, 0) ROBOT, (0, 0), []⟩

/-- `Maze.solve` in silent mode on a `dimx × dimy` grid. -/
def solve (dimx dimy : Int) (maze : Grid) (fuel : Nat) : SolveResult :=
  solveLoop dimx dimy fuel (initState maze)

/-- Extract the returned path (`self.path`, head = top of stack). -/
def SolveResult.pathOf : SolveResult → Option (List Loc)
  | .ok p _ => some p
  | _ => none

/-- Extract the final maze of a completed run. -/
def SolveResult.mazeOf : SolveResult → Option Grid
  | .ok _ m => some m
  | .stackError m => some m
  | .outOfFuel => none

/-- The final value of one cell of a completed run. -/
def SolveResult.mazeAt (r : SolveResult) (l : Loc) : Option Nat :=
  r.mazeOf.map (fun g => g l)

/-- Whether the run returned a path normally. -/
def SolveResult.isOk : SolveResult → Bool
  | .ok _ _ => true
  | _ => false

/-- Whether the run died popping an empty backtracking stack. -/
def SolveResult.isStackError : SolveResult → Bool
  | .stackError _ => true
  | _ => false

/-- Whether the fuel ran out before the loop finished. -/
def SolveResult.isOutOfFuel : SolveResult → Bool
  | .outOfFuel => true
  | _ => false

/-- The sequence of solver states at the loop boundaries of `Maze.solve`,
up to (and including) the state after the final iteration. -/
def solveTrace (dimx dimy : Int) : Nat → SolveState → List SolveState
  | 0, s => [s]
  | fuel + 1, s =>
    s ::
      (match solveStep dimx dimy s with
       | .next s2 => solveTrace dimx dimy fuel s2
       | .done s2 => [s2]
       | .emptyStackPop s2 => [s2])

/-- The sequence of grids seen during a run of `Maze.solve`, starting from
the grid as supplied (before `self.maze[0][0] = ROBOT`). -/
def solveGrids (dimx dimy : Int) (maze : Grid) (fuel : Nat) : List Grid :=
  maze :: (solveTrace dimx dimy fuel (initState maze)).map SolveState.maze

/-- Number of adjacent pairs in a grid sequence at which cell `l` changes
to value `v` (i.e. the number of times `l` is marked `v`). -/
def timesMarked (l : Loc) (v : Nat) : List Grid → Nat
  | [] => 0
  | [_] => 0
  | g1 :: g2 :: rest =>
    (if g1 l ≠ v ∧ g2 l = v then 1 else 0) + timesMarked l v (g2 :: rest)

/-- Number of adjacent pairs in a grid sequence at which cell `l` leaves
value `v`. -/
def timesLeft (l : Loc) (v : Nat) : List Grid → Nat
  | [] => 0
  | [_] => 0
  | g1 :: g2 :: rest =>
    (if g1 l = v ∧ g2 l ≠ v then 1 else 0) + timesLeft l v (g2 :: rest)

/-- The `while (x, y) != (dimx-1, dimy-1)` random-walk loop of
`Maze.generate_maze`: each iteration consumes one draw `rand i`; a draw
below `1/2` tries to advance `x`, otherwise `y`, each clamped at the
boundary (a clamped draw is simply skipped).  Visited cells are
accumulated (in reverse); the result is the walk in order together with
the number of draws consumed. -/
def walkLoop (dimx dimy : Int) (rand : Nat → Rat) :
    Nat → Int → Int → Nat → List Loc → Option (List Loc × Nat)
  | 0, x, y, i, acc =>
    if (x, y) = ((dimx - 1, dimy - 1) : Loc) then some (acc.reverse, i) else none
  | fuel + 1, x, y, i, acc =>
    if (x, y) = ((dimx - 1, dimy - 1) : Loc) then some (acc.reverse, i)
    else if rand i < Rat.divInt 1 2 then
      if x < dimx - 1 then
        walkLoop dimx dimy rand fuel (x + 1) y (i + 1) ((x + 1, y) :: acc)
      else
        walkLoop dimx dimy rand fuel x y (i + 1) acc
    else
      if y < dimy - 1 then
        walkLoop dimx dimy rand fuel x (y + 1) (i + 1) ((x, y + 1) :: acc)
      else
        walkLoop dimx dimy rand fuel x y (i + 1) acc

/-- The guaranteed-path walk of `Maze.generate_maze`, started at `(0,0)`
with `path = {(0,0)}` and draw index `0`. -/
def walk (dimx dimy : Int) (rand : Nat → Rat) (fuel : Nat) :
    Option (List Loc × Nat) :=
  walkLoop dimx dimy rand fuel 0 0 0 [(0, 0)]

/-- The obstacle-drawing loops of `Maze.generate_maze`: cell `(x, y)` is
an `OBSTACLE` iff its row-major draw (offset by the `k` draws the walk
consumed) is below `density`, else `EMPTY`. -/
def obstacleGrid (dimx dimy : Int) (density : Rat) (rand : Nat → Rat)
    (k : Nat) : Grid :=
  fun l =>
    if inBounds dimx dimy l ∧ rand (k + (l.1 * dimy + l.2).toNat) < density then
      OBSTACLE
    else EMPTY

/-- `Maze.generate_maze`: run the guaranteed-path walk, draw obstacles
independently per cell, then force every walk cell back to `EMPTY`
(`for x, y in path: self.maze[x][y] = EMPTY`).  Returns the grid together
with the guaranteed-path set; `none` when the walk's fuel ran out. -/
def generate_maze (dimx dimy : Int) (density : Rat) (rand : Nat → Rat)
    (fuel : Nat) : Option (Grid × List Loc) :=
  match walk dimx dimy rand fuel with
  | none => none
  | some (p, k) =>
    some (p.foldl (fun g l => update g l EMPTY) (obstacleGrid dimx dimy density rand k), p)

/-- `K_UP` (pygame keycode 273). -/
def K_UP : Int := 273

/-- `K_DOWN` (pygame keycode 274). -/
def K_DOWN : Int := 274

/-- `K_RIGHT` (pygame keycode 275). -/
def K_RIGHT : Int := 275

/-- `K_LEFT` (pygame keycode 276). -/
def K_LEFT : Int := 276

/-- `KEY_PRESS_DIRECTION`, in the iteration order of the CPython-2 dict
of these four consecutive small-int keys. -/
def KEY_PRESS_DIRECTION : List (Int × Direction) :=
  [(K_UP, UP), (K_DOWN, DOWN), (K_RIGHT, RIGHT), (K_LEFT, LEFT)]

/-- The `for key_press in KEY_PRESS_DIRECTION` loop of
`Maze.get_new_coordinates`: unpressed keys are skipped; a pressed key
whose target is in-bounds and not an `OBSTACLE` moves the robot
(`maze[old] = ON_PATH; maze[new] = ROBOT`) and returns the new location;
otherwise the next key is tried. -/
def get_new_coordinates_aux (maze : Grid) (dimx dimy : Int) (loc : Loc)
    (keystate : Int → Bool) : List (Int × Direction) → Option Loc × Grid
  | [] => (none, maze)
  | (key, d) :: rest =>
    if keystate key = false then
      get_new_coordinates_aux maze dimx dimy loc keystate rest
    else
      let nl : Loc := (loc.1 + d.x, loc.2 + d.y)
      if inBounds dimx dimy nl ∧ maze nl ≠ OBSTACLE then
        (some nl, update (update maze loc ON_PATH) nl ROBOT)
      else
        get_new_coordinates_aux maze dimx dimy loc keystate rest

/-- `Maze.get_new_coordinates`: the single-step movement primitive of game
mode.  `keystate` tells which keys are pressed. -/
def get_new_coordinates (maze : Grid) (dimx dimy : Int) (loc : Loc)
    (keystate : Int → Bool) : Option Loc × Grid :=
  get_new_coordinates_aux maze dimx dimy loc keystate KEY_PRESS_DIRECTION

/-- Orthogonal adjacency: `b` is one of the four `SEARCH_ORDER` offsets
from `a`. -/
def Adj (a b : Loc) : Prop :=
  b = (a.1 + 1, a.2) ∨ b = (a.1, a.2 + 1) ∨ b = (a.1 - 1, a.2) ∨ b = (a.1, a.2 - 1)

/-- Weight of a cell value for the termination measure: an `EMPTY` cell can
still change state twice, a `ROBOT`/`ON_PATH` cell once, other cells never. -/
def cellWeight (v : Nat) : Nat :=
  if v = EMPTY then 2 else if v = ROBOT then 1 else if v = ON_PATH then 1 else 0

/-- The in-bounds cells of a `dimx × dimy` grid. -/
def gridCells (dimx dimy : Int) : Finset Loc :=
  Finset.Ico 0 dimx ×ˢ Finset.Ico 0 dimy

/-- Termination measure of a solver state: total weight of the grid. -/
def measureF (dimx dimy : Int) (g : Grid) : Nat :=
  ∑ l ∈ gridCells dimx dimy, cellWeight (g l)

/-! ### Basic facts about updates, adjacency and `find_first` -/

theorem update_self (g : Grid) (l : Loc) (v : Nat) : update g l v l = v := by
  simp [update]

theorem update_other (g : Grid) {l l2 : Loc} (v : Nat) (h : l2 ≠ l) :
    update g l v l2 = g l2 := by
  simp [update, h]

/-- A cell can only become `EMPTY` through an update if it was written
`EMPTY` or already was `EMPTY`. -/
theorem update_empty_rev {g : Grid} {l l2 : Loc} {v : Nat}
    (hv : v ≠ EMPTY) (h : update g l v l2 = EMPTY) : g l2 = EMPTY := by
  by_cases h2 : l2 = l
  · subst h2; rw [update_self] at h; exact absurd h hv
  · rwa [update_other g v h2] at h

theorem Adj.symm {a b : Loc} (h : Adj a b) : Adj b a := by
  obtain ⟨a1, a2⟩ := a
  obtain ⟨b1, b2⟩ := b
  simp only [Adj, Prod.mk.injEq] at h ⊢
  omega

/-- Cells proposed by a direction of `SEARCH_ORDER` are exactly the
orthogonally adjacent cells. -/
theorem adj_iff_search_order (a b : Loc) :
    Adj a b ↔ ∃ d ∈ SEARCH_ORDER, b = (a.1 + d.x, a.2 + d.y) := by
  obtain ⟨a1, a2⟩ := a
  obtain ⟨b1, b2⟩ := b
  simp only [Adj, SEARCH_ORDER, DOWN, RIGHT, UP, LEFT, List.mem_cons, List.not_mem_nil,
    or_false, exists_eq_or_imp, exists_eq_left, Prod.mk.injEq]
  omega

/-- No in-bounds `EMPTY` cell orthogonally adjacent to `l`: the robot at
`l` is stuck (`find_next_step` will fail there). -/
def Blocked (dimx dimy : Int) (m : Grid) (l : Loc) : Prop :=
  ∀ b, Adj l b → inBounds dimx dimy b → m b ≠ EMPTY

theorem find_first_eq_none {maze : Grid} {dimx dimy : Int} {loc : Loc} :
    ∀ {ds : List Direction}, find_first maze dimx dimy loc ds = none →
      ∀ d ∈ ds, ¬(inBounds dimx dimy (loc.1 + d.x, loc.2 + d.y) ∧
        maze (loc.1 + d.x, loc.2 + d.y) = EMPTY)
  | [], _, d, hd => by simp at hd
  | d0 :: rest, h, d, hd => by
    rw [find_first] at h
    split at h
    · exact absurd h (by simp)
    · rcases List.mem_cons.mp hd with rfl | hmem
      · assumption
      · exact find_first_eq_none h d hmem

/-- A failed `find_next_step` scan means the current cell is `Blocked`. -/
theorem blocked_of_find_first_none {maze : Grid} {dimx dimy : Int} {loc : Loc}
    (h : find_first maze dimx dimy loc SEARCH_ORDER = none) :
    Blocked dimx dimy maze loc := by
  intro b hadj hin hempty
  obtain ⟨d, hd, rfl⟩ := (adj_iff_search_order loc b).mp hadj
  exact find_first_eq_none h d hd ⟨hin, hempty⟩

theorem find_first_eq_some {maze : Grid} {dimx dimy : Int} {loc : Loc} :
    ∀ {ds : List Direction} {nl : Loc}, find_first maze dimx dimy loc ds = some nl →
      inBounds dimx dimy nl ∧ maze nl = EMPTY ∧ ∃ d ∈ ds, nl = (loc.1 + d.x, loc.2 + d.y)
  | [], nl, h => by simp [find_first] at h
  | d0 :: rest, nl, h => by
    rw [find_first] at h
    split at h
    · rename_i hcond
      obtain rfl : nl = (loc.1 + d0.x, loc.2 + d0.y) := by
        simpa using h.symm
      exact ⟨hcond.1, hcond.2, d0, by simp⟩
    · obtain ⟨h1, h2, d, hd, h3⟩ := find_first_eq_some h
      exact ⟨h1, h2, d, List.mem_cons_of_mem _ hd, h3⟩

/-- A successful `find_next_step` scan moves to an in-bounds, `EMPTY`,
adjacent cell. -/
theorem find_first_some_facts {maze : Grid} {dimx dimy : Int} {loc nl : Loc}
    (h : find_first maze dimx dimy loc SEARCH_ORDER = some nl) :
    inBounds dimx dimy nl ∧ maze nl = EMPTY ∧ Adj loc nl := by
  obtain ⟨h1, h2, d, hd, h3⟩ := find_first_eq_some h
  exact ⟨h1, h2, (adj_iff_search_order loc nl).mpr ⟨d, hd, h3⟩⟩

/-! ### The solver invariant -/

theorem blocked_mono {dimx dimy : Int} {m m2 : Grid} {l : Loc}
    (hmono : ∀ b, m2 b = EMPTY → m b = EMPTY) (h : Blocked dimx dimy m l) :
    Blocked dimx dimy m2 l :=
  fun b hadj hin hempty => h b hadj hin (hmono b hempty)

/-- Invariant of the `Maze.solve` loop relative to the supplied grid `g0`:
the robot sits at the unique `ROBOT` cell; the stack holds exactly the
`ON_PATH` cells, and with the current location prepended it forms a simple
chain of orthogonally adjacent in-bounds cells ending at the origin;
obstacles are exactly the original obstacles (except the origin, which the
prologue overwrites); every visited cell was originally `EMPTY`; and every
`EXPLORED` cell has no in-bounds `EMPTY` neighbor left. -/
structure Inv (g0 : Grid) (dimx dimy : Int) (s : SolveState) : Prop where
  locIn : inBounds dimx dimy s.location
  pathIn : ∀ l ∈ s.path, inBounds dimx dimy l
  onPath : ∀ l, s.maze l = ON_PATH ↔ l ∈ s.path
  robot : ∀ l, s.maze l = ROBOT ↔ l = s.location
  chain : List.Chain' Adj (s.location :: s.path)
  lastOrigin : (s.location :: s.path).getLast? = some (0, 0)
  nodup : (s.location :: s.path).Nodup
  obstacleIff : ∀ l, s.maze l = OBSTACLE ↔ (g0 l = OBSTACLE ∧ l ≠ (0, 0))
  emptySrc : ∀ l, s.maze l = EMPTY → g0 l = EMPTY ∧ l ≠ (0, 0)
  visitedSrc : ∀ l, l ≠ (0, 0) →
    s.maze l = ROBOT ∨ s.maze l = ON_PATH ∨ s.maze l = EXPLORED → g0 l = EMPTY
  statesCover : ∀ l, s.maze l = EMPTY ∨ s.maze l = OBSTACLE ∨ s.maze l = ON_PATH ∨
    s.maze l = EXPLORED ∨ s.maze l = ROBOT
  exploredBlocked : ∀ l, s.maze l = EXPLORED → Blocked dimx dimy s.maze l

/-- Extra invariant for a run whose goal has not yet been reached (the
goal differing from the origin): the goal cell is untouched, the robot is
not at the goal, and the origin has not been marked `EXPLORED`. -/
structure RInv (g0 : Grid) (dimx dimy : Int) (s : SolveState) : Prop where
  inv : Inv g0 dimx dimy s
  notGoal : s.location ≠ (dimx - 1, dimy - 1)
  goalUntouched : s.maze (dimx - 1, dimy - 1) = g0 (dimx - 1, dimy - 1)
  originNotExplored : s.maze (0, 0) ≠ EXPLORED

/-- The invariant holds after the prologue of `Maze.solve` on a grid of
`EMPTY` and `OBSTACLE` cells. -/
theorem inv_init {g0 : Grid} {dimx dimy : Int} (hx : 1 ≤ dimx) (hy : 1 ≤ dimy)
    (hcells : ∀ l, g0 l = EMPTY ∨ g0 l = OBSTACLE) :
    Inv g0 dimx dimy (initState g0) := by
  constructor
  · simp only [initState, inBounds]
    omega
  · intro l hl; simp [initState] at hl
  · intro l
    simp only [initState]
    constructor
    · intro h
      by_cases h0 : l = (0, 0)
      · subst h0; rw [update_self] at h; simp [ROBOT, ON_PATH] at h
      · rw [update_other _ _ h0] at h
        rcases hcells l with hc | hc <;> rw [hc] at h <;>
          simp [EMPTY, OBSTACLE, ON_PATH] at h
    · intro h; simp at h
  · intro l
    simp only [initState]
    constructor
    · intro h
      by_contra h0
      rw [update_other _ _ h0] at h
      rcases hcells l with hc | hc <;> rw [hc] at h <;>
        simp [EMPTY, OBSTACLE, ROBOT] at h
    · intro h; subst h; rw [update_self]
  · simp [initState]
  · simp [initState]
  · simp [initState]
  · intro l
    simp only [initState]
    by_cases h0 : l = (0, 0)
    · subst h0
      rw [update_self]
      constructor
      · intro h; simp [ROBOT, OBSTACLE] at h
      · intro h; exact absurd rfl h.2
    · rw [update_other _ _ h0]
      exact ⟨fun h => ⟨h, h0⟩, fun h => h.1⟩
  · intro l h
    simp only [initState] at h
    by_cases h0 : l = (0, 0)
    · subst h0; rw [update_self] at h; simp [ROBOT, EMPTY] at h
    · rw [update_other _ _ h0] at h
      exact ⟨h, h0⟩
  · intro l h0 h
    simp only [initState] at h
    rw [update_other _ _ h0] at h
    rcases hcells l with hc | hc
    · exact hc
    · rw [hc] at h
      simp [OBSTACLE, ROBOT, ON_PATH, EXPLORED] at h
  · intro l
    simp only [initState]
    by_cases h0 : l = (0, 0)
    · subst h0; rw [update_self]; simp
    · rw [update_other _ _ h0]
      rcases hcells l with hc | hc <;> rw [hc] <;> simp
  · intro l h
    simp only [initState] at h
    by_cases h0 : l = (0, 0)
    · subst h0; rw [update_self] at h; simp [ROBOT, EXPLORED] at h
    · rw [update_other _ _ h0] at h
      rcases hcells l with hc | hc <;> rw [hc] at h <;>
        simp [EMPTY, OBSTACLE, EXPLORED] at h

/-! ### The termination measure -/

theorem mem_gridCells {dimx dimy : Int} {l : Loc} :
    l ∈ gridCells dimx dimy ↔ inBounds dimx dimy l := by
  obtain ⟨x, y⟩ := l
  simp only [gridCells, Finset.mem_product, Finset.mem_Ico, inBounds]
  tauto

theorem measure_update {dimx dimy : Int} {g : Grid} {l : Loc} (v : Nat)
    (hl : inBounds dimx dimy l) :
    measureF dimx dimy (update g l v) + cellWeight (g l) =
      measureF dimx dimy g + cellWeight v := by
  have hmem : l ∈ gridCells dimx dimy := mem_gridCells.mpr hl
  have h1 : measureF dimx dimy (update g l v)
      = cellWeight v + ∑ x ∈ (gridCells dimx dimy).erase l, cellWeight (g x) := by
    rw [measureF, ← Finset.add_sum_erase _ _ hmem, update_self]
    congr 1
    exact Finset.sum_congr rfl fun x hx =>
      congrArg cellWeight (update_other g v (Finset.ne_of_mem_erase hx))
  have h2 : measureF dimx dimy g
      = cellWeight (g l) + ∑ x ∈ (gridCells dimx dimy).erase l, cellWeight (g x) :=
    (Finset.add_sum_erase _ _ hmem).symm
  omega

theorem measure_le {dimx dimy : Int} (g : Grid) :
    measureF dimx dimy g ≤ 2 * ((gridCells dimx dimy).card) := by
  calc measureF dimx dimy g ≤ ∑ _l ∈ gridCells dimx dimy, 2 :=
        Finset.sum_le_sum fun l _ => by
          unfold cellWeight
          split <;> [omega; (split <;> [omega; (split <;> omega)])]
    _ = 2 * (gridCells dimx dimy).card := by
        rw [Finset.sum_const, smul_eq_mul, mul_comm]

theorem gridCells_card {dimx dimy : Int} :
    (gridCells dimx dimy).card = dimx.toNat * dimy.toNat := by
  rw [gridCells, Finset.card_product, Int.card_Ico, Int.card_Ico]
  simp

theorem measure_pos {g0 : Grid} {dimx dimy : Int} {s : SolveState}
    (h : Inv g0 dimx dimy s) : 1 ≤ measureF dimx dimy s.maze := by
  have hmem : s.location ∈ gridCells dimx dimy := mem_gridCells.mpr h.locIn
  have hrob : s.maze s.location = ROBOT := (h.robot s.location).mpr rfl
  have hw : cellWeight (s.maze s.location) = 1 := by
    rw [hrob]; simp [cellWeight, ROBOT, EMPTY]
  calc (1 : Nat) = cellWeight (s.maze s.location) := hw.symm
    _ ≤ measureF dimx dimy s.maze := by
        rw [measureF]
        exact @Finset.single_le_sum Loc Nat _ (fun l => cellWeight (s.maze l)) _
          (fun l _ => Nat.zero_le _) _ hmem

/-! ### Case analysis of one solver iteration -/

theorem update2_eq (g : Grid) (l1 : Loc) (v1 : Nat) (l2 : Loc) (v2 : Nat) (l : Loc) :
    update (update g l1 v1) l2 v2 l = if l = l2 then v2 else if l = l1 then v1 else g l :=
  rfl

theorem endCheck_next {dimx dimy : Int} {s s2 : SolveState}
    (h : endCheck dimx dimy s = .next s2) :
    s2 = s ∧ s.maze (0, 0) ≠ EXPLORED ∧ s.location ≠ (dimx - 1, dimy - 1) := by
  unfold endCheck at h
  split at h
  · simp at h
  · rename_i hc
    push_neg at hc
    injection h with h2
    exact ⟨h2.symm, hc.1, hc.2⟩

theorem endCheck_done {dimx dimy : Int} {s s2 : SolveState}
    (h : endCheck dimx dimy s = .done s2) :
    s2 = { s with path := s.location :: s.path } ∧
      (s.maze (0, 0) = EXPLORED ∨ s.location = (dimx - 1, dimy - 1)) := by
  unfold endCheck at h
  split at h
  · rename_i hc
    injection h with h2
    exact ⟨h2.symm, hc⟩
  · simp at h

theorem endCheck_ne_pop {dimx dimy : Int} {s s2 : SolveState} :
    endCheck dimx dimy s ≠ .emptyStackPop s2 := by
  unfold endCheck
  split <;> simp

theorem solveStep_advance {dimx dimy : Int} {s : SolveState} {nl : Loc}
    (hf : find_first s.maze dimx dimy s.location SEARCH_ORDER = some nl) :
    solveStep dimx dimy s =
      endCheck dimx dimy ⟨update (update s.maze nl ROBOT) s.location ON_PATH, nl,
        s.location :: s.path⟩ := by
  unfold solveStep find_next_step
  rw [hf]

theorem solveStep_deadend_nil {dimx dimy : Int} {s : SolveState}
    (hf : find_first s.maze dimx dimy s.location SEARCH_ORDER = none)
    (hp : s.path = []) :
    solveStep dimx dimy s =
      .emptyStackPop { s with maze := update s.maze s.location EXPLORED } := by
  unfold solveStep find_next_step
  rw [hf, hp]

theorem solveStep_deadend_cons {dimx dimy : Int} {s : SolveState} {l2 : Loc}
    {rest : List Loc}
    (hf : find_first s.maze dimx dimy s.location SEARCH_ORDER = none)
    (hp : s.path = l2 :: rest) :
    solveStep dimx dimy s =
      endCheck dimx dimy ⟨update (update s.maze s.location EXPLORED) l2 ROBOT, l2,
        rest⟩ := by
  unfold solveStep find_next_step
  rw [hf, hp]

/-- The last element of a list, as reported by `getLast?`, is a member. -/
theorem mem_of_getLast?_eq {α : Type} {l : List α} {a : α}
    (h : l.getLast? = some a) : a ∈ l := by
  obtain ⟨hne, ha⟩ := List.mem_getLast?_eq_getLast (Option.mem_def.mpr h)
  have hm := List.getLast_mem hne
  rwa [← ha] at hm

/-- The head of a list, as reported by `head?`, is a member. -/
theorem mem_of_head?_eq {α : Type} {l : List α} {a : α}
    (h : l.head? = some a) : a ∈ l := by
  cases l with
  | nil => simp at h
  | cons x t =>
    have hx : x = a := by simpa using h
    rw [← hx]
    exact List.mem_cons_self x t

/-- The current location is the origin exactly when the stack is empty. -/
theorem path_nil_of_loc_origin {g0 : Grid} {dimx dimy : Int} {s : SolveState}
    (h : Inv g0 dimx dimy s) (hl : s.location = (0, 0)) : s.path = [] := by
  cases hp : s.path with
  | nil => rfl
  | cons a rest =>
    exfalso
    have hlast := h.lastOrigin
    have hnd := h.nodup
    rw [hp] at hlast hnd
    rw [List.getLast?_cons_cons] at hlast
    have hmem : ((0, 0) : Loc) ∈ a :: rest := mem_of_getLast?_eq hlast
    rw [hl] at hnd
    exact (List.nodup_cons.mp hnd).1 hmem

/-! ### Invariant preservation: the advancing branch -/

theorem inv_advance {g0 : Grid} {dimx dimy : Int} {s : SolveState} {nl : Loc}
    (h : Inv g0 dimx dimy s)
    (hf : find_first s.maze dimx dimy s.location SEARCH_ORDER = some nl) :
    Inv g0 dimx dimy ⟨update (update s.maze nl ROBOT) s.location ON_PATH, nl,
        s.location :: s.path⟩ ∧
      measureF dimx dimy (update (update s.maze nl ROBOT) s.location ON_PATH) <
        measureF dimx dimy s.maze := by
  obtain ⟨hin, hempty, hadj⟩ := find_first_some_facts hf
  have hrl : s.maze s.location = ROBOT := (h.robot s.location).mpr rfl
  have hne : nl ≠ s.location := by
    intro e
    rw [e, hrl] at hempty
    exact absurd hempty (by decide)
  have hnmem : nl ∉ s.path := by
    intro hm
    exact absurd (((h.onPath nl).mpr hm).symm.trans hempty) (by decide)
  constructor
  · constructor
    · exact hin
    · intro l hl
      rcases List.mem_cons.mp hl with rfl | hl
      · exact h.locIn
      · exact h.pathIn l hl
    · intro l
      dsimp only
      rw [update2_eq]
      by_cases h1 : l = s.location
      · rw [if_pos h1]
        simp [List.mem_cons, h1]
      · rw [if_neg h1]
        by_cases h2 : l = nl
        · rw [if_pos h2]
          constructor
          · intro hc; exact absurd hc (by decide)
          · intro hc
            rcases List.mem_cons.mp hc with hc | hc
            · exact absurd hc h1
            · exact absurd (h2 ▸ hc) hnmem
        · rw [if_neg h2, h.onPath]
          simp [List.mem_cons, h1]
    · intro l
      dsimp only
      rw [update2_eq]
      by_cases h1 : l = s.location
      · rw [if_pos h1]
        constructor
        · intro hc; exact absurd hc (by decide)
        · intro hc; exact absurd (hc.symm.trans h1) hne
      · rw [if_neg h1]
        by_cases h2 : l = nl
        · rw [if_pos h2]
          exact ⟨fun _ => h2, fun _ => rfl⟩
        · rw [if_neg h2, h.robot]
          exact ⟨fun hc => absurd hc h1, fun hc => absurd hc h2⟩
    · exact List.chain'_cons.mpr ⟨hadj.symm, h.chain⟩
    · rw [List.getLast?_cons_cons]
      exact h.lastOrigin
    · refine List.nodup_cons.mpr ⟨?_, h.nodup⟩
      intro hc
      rcases List.mem_cons.mp hc with hc | hc
      · exact hne hc
      · exact hnmem hc
    · intro l
      dsimp only
      rw [update2_eq]
      by_cases h1 : l = s.location
      · rw [if_pos h1]
        constructor
        · intro hc; exact absurd hc (by decide)
        · intro hc
          have h3 : s.maze l = OBSTACLE := (h.obstacleIff l).mpr hc
          rw [h1, hrl] at h3
          exact absurd h3 (by decide)
      · rw [if_neg h1]
        by_cases h2 : l = nl
        · rw [if_pos h2]
          constructor
          · intro hc; exact absurd hc (by decide)
          · intro hc
            have h3 : s.maze l = OBSTACLE := (h.obstacleIff l).mpr hc
            rw [h2, hempty] at h3
            exact absurd h3 (by decide)
        · rw [if_neg h2]
          exact h.obstacleIff l
    · intro l hl
      dsimp only at hl
      rw [update2_eq] at hl
      by_cases h1 : l = s.location
      · rw [if_pos h1] at hl; exact absurd hl (by decide)
      · rw [if_neg h1] at hl
        by_cases h2 : l = nl
        · rw [if_pos h2] at hl; exact absurd hl (by decide)
        · rw [if_neg h2] at hl
          exact h.emptySrc l hl
    · intro l h0 hl
      dsimp only at hl
      rw [update2_eq] at hl
      by_cases h1 : l = s.location
      · rw [h1]
        exact h.visitedSrc _ (h1 ▸ h0) (Or.inl hrl)
      · rw [if_neg h1] at hl
        by_cases h2 : l = nl
        · rw [h2]
          exact (h.emptySrc nl hempty).1
        · rw [if_neg h2] at hl
          exact h.visitedSrc l h0 hl
    · intro l
      dsimp only
      rw [update2_eq]
      by_cases h1 : l = s.location
      · rw [if_pos h1]; right; right; left; rfl
      · rw [if_neg h1]
        by_cases h2 : l = nl
        · rw [if_pos h2]; right; right; right; right; rfl
        · rw [if_neg h2]; exact h.statesCover l
    · intro l hl
      dsimp only at hl
      rw [update2_eq] at hl
      by_cases h1 : l = s.location
      · rw [if_pos h1] at hl; exact absurd hl (by decide)
      · rw [if_neg h1] at hl
        by_cases h2 : l = nl
        · rw [if_pos h2] at hl; exact absurd hl (by decide)
        · rw [if_neg h2] at hl
          refine blocked_mono ?_ (h.exploredBlocked l hl)
          intro b hb
          dsimp only at hb
          rw [update2_eq] at hb
          by_cases hb1 : b = s.location
          · rw [if_pos hb1] at hb; exact absurd hb (by decide)
          · rw [if_neg hb1] at hb
            by_cases hb2 : b = nl
            · rw [if_pos hb2] at hb; exact absurd hb (by decide)
            · rwa [if_neg hb2] at hb
  · have e1 := @measure_update dimx dimy s.maze nl ROBOT hin
    have e2 := @measure_update dimx dimy (update s.maze nl ROBOT) s.location
      ON_PATH h.locIn
    rw [hempty] at e1
    rw [update_other s.maze ROBOT (Ne.symm hne), hrl] at e2
    have c1 : cellWeight EMPTY = 2 := by decide
    have c2 : cellWeight ROBOT = 1 := by decide
    have c3 : cellWeight ON_PATH = 1 := by decide
    omega

/-! ### Invariant preservation: the backtracking branch -/

theorem inv_backtrack {g0 : Grid} {dimx dimy : Int} {s : SolveState} {l2 : Loc}
    {rest : List Loc}
    (h : Inv g0 dimx dimy s)
    (hf : find_first s.maze dimx dimy s.location SEARCH_ORDER = none)
    (hp : s.path = l2 :: rest) :
    Inv g0 dimx dimy ⟨update (update s.maze s.location EXPLORED) l2 ROBOT, l2, rest⟩ ∧
      measureF dimx dimy (update (update s.maze s.location EXPLORED) l2 ROBOT) <
        measureF dimx dimy s.maze := by
  have hrl : s.maze s.location = ROBOT := (h.robot s.location).mpr rfl
  have hl2mem : l2 ∈ s.path := by rw [hp]; exact List.mem_cons_self _ _
  have hl2 : s.maze l2 = ON_PATH := (h.onPath l2).mpr hl2mem
  have hne : l2 ≠ s.location := by
    intro e
    rw [e, hrl] at hl2
    exact absurd hl2 (by decide)
  have hlocnmem : s.location ∉ s.path := by
    intro hm
    exact absurd (((h.onPath s.location).mpr hm).symm.trans hrl) (by decide)
  have hchain : List.Chain' Adj (s.location :: l2 :: rest) := by
    rw [← hp]; exact h.chain
  have hnd : (s.location :: l2 :: rest).Nodup := by rw [← hp]; exact h.nodup
  have hblocked : Blocked dimx dimy s.maze s.location :=
    blocked_of_find_first_none hf
  have hmono : ∀ b, update (update s.maze s.location EXPLORED) l2 ROBOT b = EMPTY →
      s.maze b = EMPTY := by
    intro b hb
    rw [update2_eq] at hb
    by_cases hb1 : b = l2
    · rw [if_pos hb1] at hb; exact absurd hb (by decide)
    · rw [if_neg hb1] at hb
      by_cases hb2 : b = s.location
      · rw [if_pos hb2] at hb; exact absurd hb (by decide)
      · rwa [if_neg hb2] at hb
  constructor
  · constructor
    · exact h.pathIn l2 hl2mem
    · intro l hl
      exact h.pathIn l (by rw [hp]; exact List.mem_cons_of_mem _ hl)
    · intro l
      dsimp only
      rw [update2_eq]
      by_cases h1 : l = l2
      · rw [if_pos h1]
        constructor
        · intro hc; exact absurd hc (by decide)
        · intro hc
          exact absurd (h1 ▸ hc) (List.nodup_cons.mp (List.nodup_cons.mp hnd).2).1
      · rw [if_neg h1]
        by_cases h2 : l = s.location
        · rw [if_pos h2]
          constructor
          · intro hc; exact absurd hc (by decide)
          · intro hc
            exact absurd (by rw [hp]; exact List.mem_cons_of_mem _ (h2 ▸ hc)) hlocnmem
        · rw [if_neg h2, h.onPath, hp]
          simp [List.mem_cons, h1]
    · intro l
      dsimp only
      rw [update2_eq]
      by_cases h1 : l = l2
      · rw [if_pos h1]
        exact ⟨fun _ => h1, fun _ => rfl⟩
      · rw [if_neg h1]
        by_cases h2 : l = s.location
        · rw [if_pos h2]
          constructor
          · intro hc; exact absurd hc (by decide)
          · intro hc; exact absurd hc h1
        · rw [if_neg h2, h.robot]
          exact ⟨fun hc => absurd hc h2, fun hc => absurd hc h1⟩
    · exact (List.chain'_cons.mp hchain).2
    · have := h.lastOrigin
      rw [hp, List.getLast?_cons_cons] at this
      exact this
    · exact (List.nodup_cons.mp hnd).2
    · intro l
      dsimp only
      rw [update2_eq]
      by_cases h1 : l = l2
      · rw [if_pos h1]
        constructor
        · intro hc; exact absurd hc (by decide)
        · intro hc
          have h3 : s.maze l = OBSTACLE := (h.obstacleIff l).mpr hc
          rw [h1, hl2] at h3
          exact absurd h3 (by decide)
      · rw [if_neg h1]
        by_cases h2 : l = s.location
        · rw [if_pos h2]
          constructor
          · intro hc; exact absurd hc (by decide)
          · intro hc
            have h3 : s.maze l = OBSTACLE := (h.obstacleIff l).mpr hc
            rw [h2, hrl] at h3
            exact absurd h3 (by decide)
        · rw [if_neg h2]
          exact h.obstacleIff l
    · intro l hl
      dsimp only at hl
      rw [update2_eq] at hl
      exact h.emptySrc l (hmono l (by rw [update2_eq]; exact hl))
    · intro l h0 hl
      dsimp only at hl
      rw [update2_eq] at hl
      by_cases h1 : l = l2
      · rw [h1]
        exact h.visitedSrc _ (h1 ▸ h0) (Or.inr (Or.inl hl2))
      · rw [if_neg h1] at hl
        by_cases h2 : l = s.location
        · rw [h2]
          exact h.visitedSrc _ (h2 ▸ h0) (Or.inl hrl)
        · rw [if_neg h2] at hl
          exact h.visitedSrc l h0 hl
    · intro l
      dsimp only
      rw [update2_eq]
      by_cases h1 : l = l2
      · rw [if_pos h1]; right; right; right; right; rfl
      · rw [if_neg h1]
        by_cases h2 : l = s.location
        · rw [if_pos h2]; right; right; right; left; rfl
        · rw [if_neg h2]; exact h.statesCover l
    · intro l hl
      dsimp only at hl
      rw [update2_eq] at hl
      by_cases h1 : l = l2
      · rw [if_pos h1] at hl; exact absurd hl (by decide)
      · rw [if_neg h1] at hl
        by_cases h2 : l = s.location
        · refine blocked_mono hmono ?_
          rw [h2]
          exact hblocked
        · rw [if_neg h2] at hl
          exact blocked_mono hmono (h.exploredBlocked l hl)
  · have e1 := @measure_update dimx dimy s.maze s.location EXPLORED h.locIn
    have e2 := @measure_update dimx dimy (update s.maze s.location EXPLORED) l2
      ROBOT (h.pathIn l2 hl2mem)
    rw [hrl] at e1
    rw [update_other s.maze EXPLORED hne, hl2] at e2
    have c1 : cellWeight EXPLORED = 0 := by decide
    have c2 : cellWeight ROBOT = 1 := by decide
    have c3 : cellWeight ON_PATH = 1 := by decide
    omega

/-! ### One full iteration preserves the invariant -/

theorem inv_step_next {g0 : Grid} {dimx dimy : Int} {s s2 : SolveState}
    (h : Inv g0 dimx dimy s) (hs : solveStep dimx dimy s = .next s2) :
    Inv g0 dimx dimy s2 ∧ measureF dimx dimy s2.maze < measureF dimx dimy s.maze := by
  cases hf : find_first s.maze dimx dimy s.location SEARCH_ORDER with
  | some nl =>
    rw [solveStep_advance hf] at hs
    obtain ⟨he, -, -⟩ := endCheck_next hs
    obtain ⟨hi, hm⟩ := inv_advance h hf
    rw [he]
    exact ⟨hi, hm⟩
  | none =>
    cases hp : s.path with
    | nil =>
      rw [solveStep_deadend_nil hf hp] at hs
      exact absurd hs (by simp)
    | cons l2 rest =>
      rw [solveStep_deadend_cons hf hp] at hs
      obtain ⟨he, -, -⟩ := endCheck_next hs
      obtain ⟨hi, hm⟩ := inv_backtrack h hf hp
      rw [he]
      exact ⟨hi, hm⟩

theorem step_next_conditions {dimx dimy : Int} {s s2 : SolveState}
    (hs : solveStep dimx dimy s = .next s2) :
    s2.maze (0, 0) ≠ EXPLORED ∧ s2.location ≠ (dimx - 1, dimy - 1) := by
  cases hf : find_first s.maze dimx dimy s.location SEARCH_ORDER with
  | some nl =>
    rw [solveStep_advance hf] at hs
    obtain ⟨he, h1, h2⟩ := endCheck_next hs
    rw [he]
    exact ⟨h1, h2⟩
  | none =>
    cases hp : s.path with
    | nil =>
      rw [solveStep_deadend_nil hf hp] at hs
      exact absurd hs (by simp)
    | cons l2 rest =>
      rw [solveStep_deadend_cons hf hp] at hs
      obtain ⟨he, h1, h2⟩ := endCheck_next hs
      rw [he]
      exact ⟨h1, h2⟩

/-- An iteration that continues only writes the old and the new location. -/
theorem step_next_frame {dimx dimy : Int} {s s2 : SolveState}
    (hs : solveStep dimx dimy s = .next s2) :
    ∀ l, l ≠ s.location → l ≠ s2.location → s2.maze l = s.maze l := by
  intro l hl1 hl2
  cases hf : find_first s.maze dimx dimy s.location SEARCH_ORDER with
  | some nl =>
    rw [solveStep_advance hf] at hs
    obtain ⟨he, -, -⟩ := endCheck_next hs
    rw [he] at hl2 ⊢
    dsimp only at hl2 ⊢
    rw [update2_eq, if_neg hl1, if_neg hl2]
  | none =>
    cases hp : s.path with
    | nil =>
      rw [solveStep_deadend_nil hf hp] at hs
      exact absurd hs (by simp)
    | cons l2 rest =>
      rw [solveStep_deadend_cons hf hp] at hs
      obtain ⟨he, -, -⟩ := endCheck_next hs
      rw [he] at hl2 ⊢
      dsimp only at hl2 ⊢
      rw [update2_eq, if_neg hl2, if_neg hl1]

theorem rinv_step_next {g0 : Grid} {dimx dimy : Int} {s s2 : SolveState}
    (h : RInv g0 dimx dimy s) (hs : solveStep dimx dimy s = .next s2) :
    RInv g0 dimx dimy s2 ∧ measureF dimx dimy s2.maze < measureF dimx dimy s.maze := by
  obtain ⟨hi2, hm⟩ := inv_step_next h.inv hs
  obtain ⟨h00, hng⟩ := step_next_conditions hs
  refine ⟨⟨hi2, hng, ?_, h00⟩, hm⟩
  rw [step_next_frame hs _ (Ne.symm h.notGoal) (Ne.symm hng)]
  exact h.goalUntouched

/-- A terminating iteration is an advance into the goal cell. -/
theorem rinv_step_done {g0 : Grid} {dimx dimy : Int} {s s2 : SolveState}
    (hcells : ∀ l, g0 l = EMPTY ∨ g0 l = OBSTACLE)
    (h : RInv g0 dimx dimy s) (hs : solveStep dimx dimy s = .done s2) :
    ∃ nl, find_first s.maze dimx dimy s.location SEARCH_ORDER = some nl ∧
      nl = (dimx - 1, dimy - 1) ∧ s2.location = nl ∧
      s2.path = nl :: s.location :: s.path ∧
      s2.maze = update (update s.maze nl ROBOT) s.location ON_PATH ∧
      Inv g0 dimx dimy ⟨s2.maze, nl, s.location :: s.path⟩ := by
  cases hf : find_first s.maze dimx dimy s.location SEARCH_ORDER with
  | some nl =>
    rw [solveStep_advance hf] at hs
    obtain ⟨he, hd⟩ := endCheck_done hs
    have hrl : s.maze s.location = ROBOT := (h.inv.robot s.location).mpr rfl
    have hgoal : nl = (dimx - 1, dimy - 1) := by
      rcases hd with hd | hd
      · exfalso
        dsimp only at hd
        rw [update2_eq] at hd
        by_cases h1 : ((0, 0) : Loc) = s.location
        · rw [if_pos h1] at hd; exact absurd hd (by decide)
        · rw [if_neg h1] at hd
          by_cases h2 : ((0, 0) : Loc) = nl
          · rw [if_pos h2] at hd; exact absurd hd (by decide)
          · rw [if_neg h2] at hd
            exact h.originNotExplored hd
      · exact hd
    refine ⟨nl, rfl, hgoal, ?_, ?_, ?_, ?_⟩
    · rw [he]
    · rw [he]
    · rw [he]
    · rw [he]
      exact (inv_advance h.inv hf).1
  | none =>
    cases hp : s.path with
    | nil =>
      rw [solveStep_deadend_nil hf hp] at hs
      exact absurd hs (by simp)
    | cons l2 rest =>
      exfalso
      rw [solveStep_deadend_cons hf hp] at hs
      obtain ⟨he, hd⟩ := endCheck_done hs
      have hl2 : s.maze l2 = ON_PATH :=
        (h.inv.onPath l2).mpr (by rw [hp]; exact List.mem_cons_self _ _)
      rcases hd with hd | hd
      · dsimp only at hd
        rw [update2_eq] at hd
        by_cases h1 : ((0, 0) : Loc) = l2
        · rw [if_pos h1] at hd; exact absurd hd (by decide)
        · rw [if_neg h1] at hd
          by_cases h2 : ((0, 0) : Loc) = s.location
          · have hnil := path_nil_of_loc_origin h.inv h2.symm
            rw [hp] at hnil
            exact absurd hnil (by simp)
          · rw [if_neg h2] at hd
            exact h.originNotExplored hd
      · dsimp only at hd
        have h3 : s.maze (dimx - 1, dimy - 1) = ON_PATH := by rw [← hd]; exact hl2
        rw [h.goalUntouched] at h3
        rcases hcells (dimx - 1, dimy - 1) with hc | hc <;> rw [hc] at h3 <;>
          exact absurd h3 (by decide)

/-! ### No path of empty cells is ever cut off: the crash case is unreachable -/

/-- There is a path of `EMPTY` cells of `g0`, orthogonally adjacent step by
step, from the origin to the goal. -/
def EmptyPath (g0 : Grid) (dimx dimy : Int) : Prop :=
  ∃ p : List Loc, List.Chain' Adj p ∧ p.head? = some (0, 0) ∧
    p.getLast? = some (dimx - 1, dimy - 1) ∧
    ∀ l ∈ p, inBounds dimx dimy l ∧ g0 l = EMPTY

/-- Propagation of a property along a chain, from its head to its last
element. -/
theorem chain'_last_prop {P : Loc → Prop} :
    ∀ p : List Loc, List.Chain' Adj p →
      (∀ x y, x ∈ p → y ∈ p → P x → Adj x y → P y) →
      ∀ a b, p.head? = some a → p.getLast? = some b → P a → P b := by
  intro p
  induction p with
  | nil => intro _ _ a b ha; simp at ha
  | cons x rest ih =>
    intro hch hstep a b ha hb hPa
    cases rest with
    | nil =>
      have ha2 : x = a := by simpa using ha
      have hb2 : x = b := by simpa using hb
      rw [← hb2, ha2]
      exact hPa
    | cons y rest2 =>
      have hxy : Adj x y := (List.chain'_cons.mp hch).1
      have hch2 : List.Chain' Adj (y :: rest2) := (List.chain'_cons.mp hch).2
      have ha2 : x = a := by simpa using ha
      have hPy : P y := hstep x y (by simp) (by simp) (ha2 ▸ hPa) hxy
      have hb2 : (y :: rest2).getLast? = some b := by
        rw [List.getLast?_cons_cons] at hb
        exact hb
      refine ih hch2 ?_ y b rfl hb2 hPy
      intro x2 y2 hx2 hy2
      exact hstep x2 y2 (List.mem_cons_of_mem _ hx2) (List.mem_cons_of_mem _ hy2)

/-- On a grid that still has an `EMPTY` path from origin to goal, the
solver never pops an empty stack. -/
theorem rinv_step_no_crash {g0 : Grid} {dimx dimy : Int} {s s2 : SolveState}
    (h : RInv g0 dimx dimy s) (hpath : EmptyPath g0 dimx dimy) :
    solveStep dimx dimy s ≠ .emptyStackPop s2 := by
  intro hs
  cases hf : find_first s.maze dimx dimy s.location SEARCH_ORDER with
  | some nl =>
    rw [solveStep_advance hf] at hs
    exact endCheck_ne_pop hs
  | none =>
    cases hp : s.path with
    | cons l2 rest =>
      rw [solveStep_deadend_cons hf hp] at hs
      exact endCheck_ne_pop hs
    | nil =>
      have hloc : s.location = (0, 0) := by
        have hlast := h.inv.lastOrigin
        rw [hp] at hlast
        simpa using hlast
      obtain ⟨p, hch, hhead, hlast, hmem⟩ := hpath
      have hblocked := blocked_of_find_first_none hf
      have hprop : ∀ x y, x ∈ p → y ∈ p → s.maze x ≠ EMPTY → Adj x y →
          s.maze y ≠ EMPTY := by
        intro x y hx hy hPx hxy hyE
        rcases h.inv.statesCover x with hc | hc | hc | hc | hc
        · exact hPx hc
        · exact absurd ((h.inv.obstacleIff x).mp hc).1 (by rw [(hmem x hx).2]; decide)
        · exact absurd ((h.inv.onPath x).mp hc) (by rw [hp]; simp)
        · exact h.inv.exploredBlocked x hc y hxy (hmem y hy).1 hyE
        · have hx2 : x = s.location := (h.inv.robot x).mp hc
          exact hblocked y (hx2 ▸ hxy) (hmem y hy).1 hyE
      have hPa : s.maze (0, 0) ≠ EMPTY := by
        rw [← hloc, (h.inv.robot s.location).mpr rfl]
        decide
      have hPb := chain'_last_prop p hch hprop (0, 0) (dimx - 1, dimy - 1)
        hhead hlast hPa
      have hgoalE : s.maze (dimx - 1, dimy - 1) = EMPTY := by
        rw [h.goalUntouched]
        exact (hmem _ (mem_of_getLast?_eq hlast)).2
      exact hPb hgoalE

/-! ### Loop-level theorems -/

theorem find_first_none_of_blocked {maze : Grid} {dimx dimy : Int} {loc : Loc} :
    ∀ ds : List Direction,
      (∀ d ∈ ds, ¬(inBounds dimx dimy (loc.1 + d.x, loc.2 + d.y) ∧
        maze (loc.1 + d.x, loc.2 + d.y) = EMPTY)) →
      find_first maze dimx dimy loc ds = none
  | [], _ => rfl
  | d :: rest, h => by
    rw [find_first, if_neg (h d (by simp))]
    exact find_first_none_of_blocked rest fun d2 hd2 => h d2 (List.mem_cons_of_mem _ hd2)

/-- On a `1 × 1` grid the robot has no in-bounds neighbor at all. -/
theorem find_first_1x1 (m : Grid) : find_first m 1 1 (0, 0) SEARCH_ORDER = none := by
  apply find_first_none_of_blocked
  intro d hd
  rintro ⟨hin, -⟩
  simp only [SEARCH_ORDER, List.mem_cons, List.not_mem_nil, or_false] at hd
  rcases hd with rfl | rfl | rfl | rfl <;>
    simp only [DOWN, RIGHT, UP, LEFT, inBounds] at hin <;> omega

/-- On a `1 × 1` grid, `solve` pops the empty stack on its very first
iteration: it never returns a path. -/
theorem solve_1x1_not_ok (g0 : Grid) (fuel : Nat) :
    (solve 1 1 g0 fuel).pathOf = none := by
  cases fuel with
  | zero => rfl
  | succ n =>
    rw [solve, solveLoop, solveStep_deadend_nil (find_first_1x1 _) rfl]
    rfl

theorem rinv_init {g0 : Grid} {dimx dimy : Int} (hx : 1 ≤ dimx) (hy : 1 ≤ dimy)
    (hcells : ∀ l, g0 l = EMPTY ∨ g0 l = OBSTACLE)
    (hgoal : ((0, 0) : Loc) ≠ (dimx - 1, dimy - 1)) :
    RInv g0 dimx dimy (initState g0) := by
  refine ⟨inv_init hx hy hcells, hgoal, ?_, ?_⟩
  · exact update_other g0 ROBOT (Ne.symm hgoal)
  · dsimp only [initState]
    rw [update_self]
    decide

theorem solveLoop_no_outOfFuel {g0 : Grid} {dimx dimy : Int} :
    ∀ (fuel : Nat) (s : SolveState), Inv g0 dimx dimy s →
      measureF dimx dimy s.maze ≤ fuel →
      (solveLoop dimx dimy fuel s).isOutOfFuel = false := by
  intro fuel
  induction fuel with
  | zero =>
    intro s h hm
    have := measure_pos h
    omega
  | succ n ih =>
    intro s h hm
    rw [solveLoop]
    cases hs : solveStep dimx dimy s with
    | done s2 => rfl
    | emptyStackPop s2 => rfl
    | next s2 =>
      obtain ⟨h2, hlt⟩ := inv_step_next h hs
      exact ih s2 h2 (by omega)

theorem solveLoop_ok {g0 : Grid} {dimx dimy : Int}
    (hpath : EmptyPath g0 dimx dimy) :
    ∀ (fuel : Nat) (s : SolveState), RInv g0 dimx dimy s →
      measureF dimx dimy s.maze ≤ fuel →
      (solveLoop dimx dimy fuel s).isOk = true := by
  intro fuel
  induction fuel with
  | zero =>
    intro s h hm
    have := measure_pos h.inv
    omega
  | succ n ih =>
    intro s h hm
    rw [solveLoop]
    cases hs : solveStep dimx dimy s with
    | done s2 => rfl
    | emptyStackPop s2 => exact absurd hs (rinv_step_no_crash h hpath)
    | next s2 =>
      obtain ⟨h2, hlt⟩ := rinv_step_next h hs
      exact ih s2 h2 (by omega)

theorem solveLoop_path_spec {g0 : Grid} {dimx dimy : Int}
    (hcells : ∀ l, g0 l = EMPTY ∨ g0 l = OBSTACLE) :
    ∀ (fuel : Nat) (s : SolveState) (p : List Loc) (m : Grid),
      RInv g0 dimx dimy s →
      solveLoop dimx dimy fuel s = .ok p m →
      p.head? = some (dimx - 1, dimy - 1) ∧ p.getLast? = some (0, 0) ∧
      List.Chain' Adj p ∧ p.Nodup ∧
      (∀ l ∈ p, inBounds dimx dimy l ∧ (l ≠ (0, 0) → g0 l = EMPTY)) ∧
      (∀ l, m l = ROBOT ↔ l = (dimx - 1, dimy - 1)) ∧
      (∀ l ∈ p, l ≠ (dimx - 1, dimy - 1) → m l = ON_PATH) := by
  intro fuel
  induction fuel with
  | zero =>
    intro s p m h hs
    rw [solveLoop] at hs
    exact absurd hs (by simp)
  | succ n ih =>
    intro s p m h hs
    rw [solveLoop] at hs
    cases hstep : solveStep dimx dimy s with
    | next s2 =>
      rw [hstep] at hs
      exact ih s2 p m (rinv_step_next h hstep).1 hs
    | emptyStackPop s2 =>
      rw [hstep] at hs
      exact absurd hs (by simp)
    | done s2 =>
      rw [hstep] at hs
      injection hs with hp2 hm2
      obtain ⟨nl, hf, hgoal, hloc2, hpath2, hmaze2, hinv⟩ :=
        rinv_step_done hcells h hstep
      subst hp2
      subst hm2
      rw [hpath2]
      have hrob : s2.maze nl = ROBOT := (hinv.robot nl).mpr rfl
      refine ⟨by simp [hgoal], ?_, hinv.chain, hinv.nodup, ?_, ?_, ?_⟩
      · exact hinv.lastOrigin
      · intro l hl
        rcases List.mem_cons.mp hl with rfl | hl
        · exact ⟨hinv.locIn, fun h0 => hinv.visitedSrc _ h0 (Or.inl hrob)⟩
        · refine ⟨hinv.pathIn l hl, fun h0 => hinv.visitedSrc _ h0 ?_⟩
          exact Or.inr (Or.inl ((hinv.onPath l).mpr hl))
      · intro l
        rw [← hgoal]
        exact hinv.robot l
      · intro l hl hlg
        rcases List.mem_cons.mp hl with rfl | hl
        · exact absurd hgoal hlg
        · exact (hinv.onPath l).mpr hl

/-! ### `solve`-level wrappers -/

theorem measure_init_le {g0 : Grid} {dimx dimy : Int} :
    measureF dimx dimy (initState g0).maze ≤ 2 * (dimx.toNat * dimy.toNat) := by
  calc measureF dimx dimy (initState g0).maze ≤ 2 * (gridCells dimx dimy).card :=
        measure_le _
    _ = 2 * (dimx.toNat * dimy.toNat) := by rw [gridCells_card]

theorem origin_ne_goal {dimx dimy : Int} (hx : 1 ≤ dimx) (hy : 1 ≤ dimy)
    (h : ¬(dimx = 1 ∧ dimy = 1)) : ((0, 0) : Loc) ≠ (dimx - 1, dimy - 1) := by
  intro e
  rw [Prod.mk.injEq] at e
  exact h ⟨by omega, by omega⟩

/-- On a grid of `EMPTY`/`OBSTACLE` cells with an `EMPTY` path from the
origin to the goal (and more than one cell), `solve` returns a path. -/
theorem solve_succeeds {g0 : Grid} {dimx dimy : Int} {fuel : Nat}
    (hx : 1 ≤ dimx) (hy : 1 ≤ dimy)
    (hcells : ∀ l, g0 l = EMPTY ∨ g0 l = OBSTACLE)
    (h11 : ¬(dimx = 1 ∧ dimy = 1))
    (hpath : EmptyPath g0 dimx dimy)
    (hfuel : 2 * (dimx.toNat * dimy.toNat) ≤ fuel) :
    (solve dimx dimy g0 fuel).isOk = true := by
  apply solveLoop_ok hpath fuel _ (rinv_init hx hy hcells (origin_ne_goal hx hy h11))
  exact le_trans measure_init_le hfuel

/-- Whenever `solve` returns a path, that path — read bottom-to-top — is a
simple chain of orthogonally adjacent, in-bounds, non-obstacle cells from
the origin to the goal, and the final grid facts hold. -/
theorem solve_ok_facts {g0 : Grid} {dimx dimy : Int} {fuel : Nat} {p : List Loc}
    {m : Grid}
    (hx : 1 ≤ dimx) (hy : 1 ≤ dimy)
    (hcells : ∀ l, g0 l = EMPTY ∨ g0 l = OBSTACLE)
    (hm : solveLoop dimx dimy fuel (initState g0) = .ok p m) :
    p.head? = some (dimx - 1, dimy - 1) ∧ p.getLast? = some (0, 0) ∧
    List.Chain' Adj p ∧ p.Nodup ∧
    (∀ l ∈ p, inBounds dimx dimy l ∧ (l ≠ (0, 0) → g0 l = EMPTY)) ∧
    (∀ l, m l = ROBOT ↔ l = (dimx - 1, dimy - 1)) ∧
    (∀ l ∈ p, l ≠ (dimx - 1, dimy - 1) → m l = ON_PATH) := by
  by_cases h11 : dimx = 1 ∧ dimy = 1
  · exfalso
    obtain ⟨e1, e2⟩ := h11
    subst e1; subst e2
    have := solve_1x1_not_ok g0 fuel
    rw [solve, hm] at this
    exact absurd this (by simp [SolveResult.pathOf])
  · exact solveLoop_path_spec hcells fuel _ p m
      (rinv_init hx hy hcells (origin_ne_goal hx hy h11)) hm

theorem pathOf_ok {dimx dimy : Int} {fuel : Nat} {g0 : Grid} {p : List Loc}
    (hp : (solve dimx dimy g0 fuel).pathOf = some p) :
    ∃ m, solveLoop dimx dimy fuel (initState g0) = .ok p m := by
  rw [solve] at hp
  cases hr : solveLoop dimx dimy fuel (initState g0) with
  | ok p2 m2 =>
    rw [hr] at hp
    simp only [SolveResult.pathOf, Option.some.injEq] at hp
    subst hp
    exact ⟨m2, rfl⟩
  | stackError m2 =>
    rw [hr] at hp
    exact absurd hp (by simp [SolveResult.pathOf])
  | outOfFuel =>
    rw [hr] at hp
    exact absurd hp (by simp [SolveResult.pathOf])

/-- On a fresh grid the `solve` loop finishes — normally or in the empty
stack pop — within `2 * dimx * dimy` iterations. -/
theorem solve_terminates_bounded {g0 : Grid} {dimx dimy : Int}
    (hx : 1 ≤ dimx) (hy : 1 ≤ dimy)
    (hcells : ∀ l, g0 l = EMPTY ∨ g0 l = OBSTACLE) :
    (solve dimx dimy g0 (2 * dimx * dimy).toNat).isOutOfFuel = false := by
  apply solveLoop_no_outOfFuel _ _ (inv_init hx hy hcells)
  refine le_trans measure_init_le ?_
  obtain ⟨a, ha⟩ := Int.eq_ofNat_of_zero_le (by omega : (0 : Int) ≤ dimx)
  obtain ⟨b, hb⟩ := Int.eq_ofNat_of_zero_le (by omega : (0 : Int) ≤ dimy)
  subst ha; subst hb
  rw [show ((2 : Int) * (a : Int) * (b : Int)) = ((2 * a * b : Nat) : Int) by
    push_cast; ring]
  simp only [Int.toNat_natCast]
  exact le_of_eq (Nat.mul_assoc 2 a b).symm

/-! ### The generation walk -/

theorem walkLoop_spec {dimx dimy : Int} {rand : Nat → Rat} :
    ∀ (fuel : Nat) (x y : Int) (i : Nat) (acc : List Loc) (p : List Loc) (k : Nat),
      walkLoop dimx dimy rand fuel x y i acc = some (p, k) →
      0 ≤ x → x < dimx → 0 ≤ y → y < dimy →
      acc.head? = some (x, y) → acc.getLast? = some (0, 0) →
      List.Chain' Adj acc → (∀ l ∈ acc, inBounds dimx dimy l) →
      p.head? = some (0, 0) ∧ p.getLast? = some (dimx - 1, dimy - 1) ∧
        List.Chain' Adj p ∧ ∀ l ∈ p, inBounds dimx dimy l := by
  intro fuel
  induction fuel with
  | zero =>
    intro x y i acc p k hw hx0 hx1 hy0 hy1 hhead hlast hchain hmem
    rw [walkLoop] at hw
    split at hw
    · rename_i hcond
      injection hw with hw2
      injection hw2 with hwp hwk
      subst hwp
      refine ⟨?_, ?_, ?_, ?_⟩
      · rw [List.head?_reverse]; exact hlast
      · rw [List.getLast?_reverse, hhead, hcond]
      · rw [List.chain'_reverse]
        exact hchain.imp fun a b hab => hab.symm
      · intro l hl
        exact hmem l (List.mem_reverse.mp hl)
    · exact absurd hw (by simp)
  | succ n ih =>
    intro x y i acc p k hw hx0 hx1 hy0 hy1 hhead hlast hchain hmem
    rw [walkLoop] at hw
    split at hw
    · rename_i hcond
      injection hw with hw2
      injection hw2 with hwp hwk
      subst hwp
      refine ⟨?_, ?_, ?_, ?_⟩
      · rw [List.head?_reverse]; exact hlast
      · rw [List.getLast?_reverse, hhead, hcond]
      · rw [List.chain'_reverse]
        exact hchain.imp fun a b hab => hab.symm
      · intro l hl
        exact hmem l (List.mem_reverse.mp hl)
    · rename_i hcond
      split at hw
      · split at hw
        · rename_i hrand hxlt
          refine ih (x + 1) y (i + 1) ((x + 1, y) :: acc) p k hw (by omega)
            (by omega) hy0 hy1 rfl ?_ ?_ ?_
          · cases acc with
            | nil => exact absurd hhead (by simp)
            | cons a t => rw [List.getLast?_cons_cons]; exact hlast
          · rw [List.chain'_cons']
            refine ⟨?_, hchain⟩
            intro z hz
            rw [hhead] at hz
            have hz2 : (x, y) = z := by simpa using hz
            rw [← hz2]
            exact Or.inr (Or.inr (Or.inl (by simp)))
          · intro l hl
            rcases List.mem_cons.mp hl with rfl | hl
            · exact ⟨by omega, by omega, hy0, hy1⟩
            · exact hmem l hl
        · exact ih x y (i + 1) acc p k hw hx0 hx1 hy0 hy1 hhead hlast hchain hmem
      · split at hw
        · rename_i hrand hylt
          refine ih x (y + 1) (i + 1) ((x, y + 1) :: acc) p k hw hx0 hx1 (by omega)
            (by omega) rfl ?_ ?_ ?_
          · cases acc with
            | nil => exact absurd hhead (by simp)
            | cons a t => rw [List.getLast?_cons_cons]; exact hlast
          · rw [List.chain'_cons']
            refine ⟨?_, hchain⟩
            intro z hz
            rw [hhead] at hz
            have hz2 : (x, y) = z := by simpa using hz
            rw [← hz2]
            exact Or.inr (Or.inr (Or.inr (by simp)))
          · intro l hl
            rcases List.mem_cons.mp hl with rfl | hl
            · exact ⟨hx0, hx1, by omega, by omega⟩
            · exact hmem l hl
        · exact ih x y (i + 1) acc p k hw hx0 hx1 hy0 hy1 hhead hlast hchain hmem

/-- Specification of the whole guaranteed-path walk: when it completes,
the recorded path is a chain of in-bounds, orthogonally adjacent cells
from the origin to the goal. -/
theorem walk_spec {dimx dimy : Int} {rand : Nat → Rat} {fuel : Nat}
    {p : List Loc} {k : Nat}
    (hx : 1 ≤ dimx) (hy : 1 ≤ dimy)
    (h : walk dimx dimy rand fuel = some (p, k)) :
    p.head? = some (0, 0) ∧ p.getLast? = some (dimx - 1, dimy - 1) ∧
      List.Chain' Adj p ∧ ∀ l ∈ p, inBounds dimx dimy l := by
  refine walkLoop_spec fuel 0 0 0 [(0, 0)] p k h (le_refl 0) (by omega) (le_refl 0)
    (by omega) rfl rfl ?_ ?_
  · exact List.chain'_singleton _
  · intro l hl
    have : l = ((0, 0) : Loc) := by simpa using hl
    rw [this]
    exact ⟨le_refl 0, by omega, le_refl 0, by omega⟩

/-- With a non-positive dimension the walk never reaches the goal: it
consumes any amount of fuel and fails (the Python loop never exits). -/
theorem walkLoop_none_of_nonpos {dimx dimy : Int} {rand : Nat → Rat}
    (hd : dimx ≤ 0 ∨ dimy ≤ 0) :
    ∀ (fuel : Nat) (x y : Int) (i : Nat) (acc : List Loc),
      0 ≤ x → 0 ≤ y → walkLoop dimx dimy rand fuel x y i acc = none := by
  have hcond : ∀ x y : Int, 0 ≤ x → 0 ≤ y → ¬((x, y) = ((dimx - 1, dimy - 1) : Loc)) := by
    intro x y hx0 hy0 e
    rw [Prod.mk.injEq] at e
    omega
  intro fuel
  induction fuel with
  | zero =>
    intro x y i acc hx0 hy0
    rw [walkLoop, if_neg (hcond x y hx0 hy0)]
  | succ n ih =>
    intro x y i acc hx0 hy0
    rw [walkLoop, if_neg (hcond x y hx0 hy0)]
    by_cases hr : rand i < Rat.divInt 1 2
    · rw [if_pos hr]
      by_cases hxl : x < dimx - 1
      · rw [if_pos hxl]
        exact ih (x + 1) y (i + 1) _ (by omega) hy0
      · rw [if_neg hxl]
        exact ih x y (i + 1) _ hx0 hy0
    · rw [if_neg hr]
      by_cases hyl : y < dimy - 1
      · rw [if_pos hyl]
        exact ih x (y + 1) (i + 1) _ hx0 (by omega)
      · rw [if_neg hyl]
        exact ih x y (i + 1) _ hx0 hy0

/-! ### The generated grid -/

theorem foldl_update_not_mem :
    ∀ (p : List Loc) (g : Grid) (l : Loc), l ∉ p →
      p.foldl (fun g2 l2 => update g2 l2 EMPTY) g l = g l
  | [], _, _, _ => rfl
  | a :: rest, g, l, h => by
    rw [List.foldl_cons,
      foldl_update_not_mem rest _ l fun hm => h (List.mem_cons_of_mem _ hm)]
    exact update_other g EMPTY fun e => h (by rw [e]; exact List.mem_cons_self a rest)

/-- The final `for x, y in path: self.maze[x][y] = EMPTY` loop makes every
guaranteed-path cell `EMPTY`, no matter what was drawn for it. -/
theorem foldl_update_mem :
    ∀ (p : List Loc) (g : Grid) (l : Loc), l ∈ p →
      p.foldl (fun g2 l2 => update g2 l2 EMPTY) g l = EMPTY
  | [], _, _, h => absurd h (List.not_mem_nil _)
  | a :: rest, g, l, h => by
    rw [List.foldl_cons]
    by_cases hm : l ∈ rest
    · exact foldl_update_mem rest _ l hm
    · have hla : l = a := by
        rcases List.mem_cons.mp h with e | e
        · exact e
        · exact absurd e hm
      rw [foldl_update_not_mem rest _ l hm, hla, update_self]

/-- The value of one cell of the generated grid (`none` when generation's
walk did not finish). -/
def generatedGridAt (dimx dimy : Int) (density : Rat) (rand : Nat → Rat)
    (fuel : Nat) (l : Loc) : Option Nat :=
  (generate_maze dimx dimy density rand fuel).map fun gp => gp.1 l

/-- The guaranteed-path set recorded by the generation walk. -/
def generatedPath (dimx dimy : Int) (density : Rat) (rand : Nat → Rat)
    (fuel : Nat) : Option (List Loc) :=
  (generate_maze dimx dimy density rand fuel).map fun gp => gp.2

/-- `Maze.__init__` followed by `Maze.solve`: generate a maze and solve it. -/
def generate_and_solve (dimx dimy : Int) (density : Rat) (rand : Nat → Rat)
    (wfuel sfuel : Nat) : Option SolveResult :=
  (generate_maze dimx dimy density rand wfuel).map fun gp =>
    solve dimx dimy gp.1 sfuel

theorem generate_maze_eq {dimx dimy : Int} {density : Rat} {rand : Nat → Rat}
    {fuel : Nat} {p : List Loc}
    (h : generatedPath dimx dimy density rand fuel = some p) :
    ∃ k, walk dimx dimy rand fuel = some (p, k) ∧
      generate_maze dimx dimy density rand fuel =
        some (p.foldl (fun g l => update g l EMPTY)
          (obstacleGrid dimx dimy density rand k), p) := by
  cases hw : walk dimx dimy rand fuel with
  | none =>
    rw [generatedPath, generate_maze, hw] at h
    exact absurd h (by simp)
  | some pk =>
    obtain ⟨p2, k⟩ := pk
    rw [generatedPath, generate_maze, hw] at h
    simp only [Option.map_some', Option.some.injEq] at h
    subst h
    refine ⟨k, rfl, ?_⟩
    rw [generate_maze, hw]

/-- Every cell of the generated grid is `EMPTY` or `OBSTACLE`. -/
theorem generated_cells (dimx dimy : Int) (density : Rat) (rand : Nat → Rat)
    (k : Nat) (p : List Loc) :
    ∀ l, (p.foldl (fun g l2 => update g l2 EMPTY)
        (obstacleGrid dimx dimy density rand k)) l = EMPTY ∨
      (p.foldl (fun g l2 => update g l2 EMPTY)
        (obstacleGrid dimx dimy density rand k)) l = OBSTACLE := by
  intro l
  by_cases hm : l ∈ p
  · left
    exact foldl_update_mem p _ l hm
  · rw [foldl_update_not_mem p _ l hm]
    unfold obstacleGrid
    split
    · right; rfl
    · left; rfl

/-- When the generation walk completes, the generated grid contains an
`EMPTY` path of adjacent cells from the origin to the goal. -/
theorem generated_emptyPath {dimx dimy : Int} {density : Rat} {rand : Nat → Rat}
    {fuel : Nat} {p : List Loc} {k : Nat}
    (hx : 1 ≤ dimx) (hy : 1 ≤ dimy)
    (hw : walk dimx dimy rand fuel = some (p, k)) :
    EmptyPath (p.foldl (fun g l => update g l EMPTY)
      (obstacleGrid dimx dimy density rand k)) dimx dimy := by
  obtain ⟨hhead, hlast, hchain, hmem⟩ := walk_spec hx hy hw
  exact ⟨p, hchain, hhead, hlast, fun l hl => ⟨hmem l hl, foldl_update_mem p _ l hl⟩⟩

/-! ### Trace-level facts -/

/-- The state carried by any step outcome. -/
def StepResult.state : StepResult → SolveState
  | .next s => s
  | .done s => s
  | .emptyStackPop s => s

theorem endCheck_state_maze (dimx dimy : Int) (s : SolveState) :
    ((endCheck dimx dimy s).state).maze = s.maze := by
  unfold endCheck
  split <;> rfl

theorem solveTrace_ne_nil (dimx dimy : Int) (fuel : Nat) (s : SolveState) :
    solveTrace dimx dimy fuel s ≠ [] := by
  cases fuel with
  | zero => simp [solveTrace]
  | succ n => rw [solveTrace]; simp

theorem solveTrace_head (dimx dimy : Int) (fuel : Nat) (s : SolveState) :
    (solveTrace dimx dimy fuel s).head? = some s := by
  cases fuel with
  | zero => rfl
  | succ n => rw [solveTrace]; rfl

/-- During the active part of a run (every loop boundary before the final
state), the robot's cell is the unique `ROBOT` cell. -/
theorem solveTrace_active_robot {g0 : Grid} {dimx dimy : Int} :
    ∀ (fuel : Nat) (s : SolveState), Inv g0 dimx dimy s →
      ∀ st ∈ (solveTrace dimx dimy fuel s).dropLast,
        ∀ l, st.maze l = ROBOT ↔ l = st.location := by
  intro fuel
  induction fuel with
  | zero =>
    intro s h st hst
    rw [solveTrace] at hst
    simp at hst
  | succ n ih =>
    intro s h st hst
    rw [solveTrace] at hst
    cases hs : solveStep dimx dimy s with
    | next s2 =>
      rw [hs] at hst
      rw [List.dropLast_cons_of_ne_nil (solveTrace_ne_nil dimx dimy n s2)] at hst
      rcases List.mem_cons.mp hst with rfl | hst
      · exact h.robot
      · exact ih s2 (inv_step_next h hs).1 st hst
    | done s2 =>
      rw [hs] at hst
      rcases List.mem_cons.mp hst with rfl | hst
      · exact h.robot
      · simp at hst
    | emptyStackPop s2 =>
      rw [hs] at hst
      rcases List.mem_cons.mp hst with rfl | hst
      · exact h.robot
      · simp at hst

/-- Relation between consecutive grids of a run: no cell returns to
`EMPTY`, and a cell freshly marked `ROBOT` was `EMPTY` (a new cell found
by `find_next_step`) or `ON_PATH` (re-occupied by backtracking). -/
def cellStepOK (g g2 : Grid) : Prop :=
  ∀ l, (g2 l = EMPTY → g l = EMPTY) ∧
    (g2 l = ROBOT → g l ≠ ROBOT → g l = EMPTY ∨ g l = ON_PATH)

/-- Pairwise relation along consecutive entries of a list of grids. -/
def Consec (R : Grid → Grid → Prop) : List Grid → Prop
  | [] => True
  | [_] => True
  | g1 :: g2 :: rest => R g1 g2 ∧ Consec R (g2 :: rest)

theorem consec_cons {R : Grid → Grid → Prop} {x : Grid} {l : List Grid}
    (hR : ∀ y, l.head? = some y → R x y) (hl : Consec R l) : Consec R (x :: l) := by
  cases l with
  | nil => trivial
  | cons y t => exact ⟨hR y rfl, hl⟩

theorem cellStepOK_advance {g0 : Grid} {dimx dimy : Int} {s : SolveState} {nl : Loc}
    (h : Inv g0 dimx dimy s)
    (hf : find_first s.maze dimx dimy s.location SEARCH_ORDER = some nl) :
    cellStepOK s.maze (update (update s.maze nl ROBOT) s.location ON_PATH) := by
  obtain ⟨-, hempty, -⟩ := find_first_some_facts hf
  intro l
  rw [update2_eq]
  by_cases h1 : l = s.location
  · rw [if_pos h1]
    exact ⟨fun hc => absurd hc (by decide), fun hc => absurd hc (by decide)⟩
  · rw [if_neg h1]
    by_cases h2 : l = nl
    · rw [if_pos h2]
      refine ⟨fun hc => absurd hc (by decide), fun _ _ => Or.inl ?_⟩
      rw [h2]
      exact hempty
    · rw [if_neg h2]
      exact ⟨fun hc => hc, fun hc hc2 => absurd hc hc2⟩

theorem cellStepOK_backtrack {g0 : Grid} {dimx dimy : Int} {s : SolveState}
    {l2 : Loc} {rest : List Loc}
    (h : Inv g0 dimx dimy s) (hp : s.path = l2 :: rest) :
    cellStepOK s.maze (update (update s.maze s.location EXPLORED) l2 ROBOT) := by
  have hl2 : s.maze l2 = ON_PATH :=
    (h.onPath l2).mpr (by rw [hp]; exact List.mem_cons_self _ _)
  intro l
  rw [update2_eq]
  by_cases h1 : l = l2
  · rw [if_pos h1]
    refine ⟨fun hc => absurd hc (by decide), fun _ _ => Or.inr ?_⟩
    rw [h1]
    exact hl2
  · rw [if_neg h1]
    by_cases h2 : l = s.location
    · rw [if_pos h2]
      exact ⟨fun hc => absurd hc (by decide), fun hc => absurd hc (by decide)⟩
    · rw [if_neg h2]
      exact ⟨fun hc => hc, fun hc hc2 => absurd hc hc2⟩

theorem cellStepOK_crash (s : SolveState) :
    cellStepOK s.maze (update s.maze s.location EXPLORED) := by
  intro l
  unfold update
  by_cases h1 : l = s.location
  · rw [if_pos h1]
    exact ⟨fun hc => absurd hc (by decide), fun hc => absurd hc (by decide)⟩
  · rw [if_neg h1]
    exact ⟨fun hc => hc, fun hc hc2 => absurd hc hc2⟩

theorem step_state_cellStepOK {g0 : Grid} {dimx dimy : Int} {s : SolveState}
    (h : Inv g0 dimx dimy s) :
    cellStepOK s.maze ((solveStep dimx dimy s).state).maze := by
  cases hf : find_first s.maze dimx dimy s.location SEARCH_ORDER with
  | some nl =>
    rw [solveStep_advance hf, endCheck_state_maze]
    exact cellStepOK_advance h hf
  | none =>
    cases hp : s.path with
    | nil =>
      rw [solveStep_deadend_nil hf hp]
      exact cellStepOK_crash s
    | cons l2 rest =>
      rw [solveStep_deadend_cons hf hp, endCheck_state_maze]
      exact cellStepOK_backtrack h hp

theorem solveTrace_cellStepOK {g0 : Grid} {dimx dimy : Int} :
    ∀ (fuel : Nat) (s : SolveState), Inv g0 dimx dimy s →
      Consec cellStepOK ((solveTrace dimx dimy fuel s).map SolveState.maze) := by
  intro fuel
  induction fuel with
  | zero => intro s _; trivial
  | succ n ih =>
    intro s h
    rw [solveTrace]
    cases hs : solveStep dimx dimy s with
    | next s2 =>
      have hok : cellStepOK s.maze s2.maze := by
        have h2 := step_state_cellStepOK h
        rw [hs] at h2
        exact h2
      rw [List.map_cons]
      apply consec_cons
      · intro y hy
        rw [List.head?_map, solveTrace_head, Option.map_some'] at hy
        injection hy with hy
        rw [← hy]
        exact hok
      · exact ih s2 (inv_step_next h hs).1
    | done s2 =>
      have hok : cellStepOK s.maze s2.maze := by
        have h2 := step_state_cellStepOK h
        rw [hs] at h2
        exact h2
      exact ⟨hok, trivial⟩
    | emptyStackPop s2 =>
      have hok : cellStepOK s.maze s2.maze := by
        have h2 := step_state_cellStepOK h
        rw [hs] at h2
        exact h2
      exact ⟨hok, trivial⟩

theorem cellStepOK_init {g0 : Grid} (horigin : g0 (0, 0) = EMPTY) :
    cellStepOK g0 (initState g0).maze := by
  intro l
  dsimp only [initState]
  unfold update
  by_cases h1 : l = (0, 0)
  · rw [if_pos h1]
    refine ⟨fun hc => absurd hc (by decide), fun _ _ => Or.inl ?_⟩
    rw [h1]
    exact horigin
  · rw [if_neg h1]
    exact ⟨fun hc => hc, fun hc hc2 => absurd hc hc2⟩

/-- The whole grid sequence of a run satisfies the transition discipline. -/
theorem solveGrids_consec {g0 : Grid} {dimx dimy : Int} {fuel : Nat}
    (hx : 1 ≤ dimx) (hy : 1 ≤ dimy)
    (hcells : ∀ l, g0 l = EMPTY ∨ g0 l = OBSTACLE)
    (horigin : g0 (0, 0) = EMPTY) :
    Consec cellStepOK (solveGrids dimx dimy g0 fuel) := by
  rw [solveGrids]
  apply consec_cons
  · intro y hy2
    rw [List.head?_map, solveTrace_head, Option.map_some'] at hy2
    injection hy2 with hy2
    rw [← hy2]
    exact cellStepOK_init horigin
  · exact solveTrace_cellStepOK fuel _ (inv_init hx hy hcells)

theorem timesLeft_empty_zero {l : Loc} :
    ∀ gs : List Grid, Consec cellStepOK gs →
      (∀ g1, gs.head? = some g1 → g1 l ≠ EMPTY) → timesLeft l EMPTY gs = 0
  | [], _, _ => rfl
  | [_], _, _ => rfl
  | g1 :: g2 :: rest, hc, hh => by
    rw [timesLeft]
    have h1 : g1 l ≠ EMPTY := hh g1 rfl
    have h2 : g2 l ≠ EMPTY := fun he => h1 ((hc.1 l).1 he)
    rw [if_neg fun hcontra => h1 hcontra.1]
    rw [timesLeft_empty_zero (g2 :: rest) hc.2 fun g hg => by
      injection hg with hg
      rw [← hg]
      exact h2]

/-- Each cell leaves `EMPTY` at most once during a run. -/
theorem timesLeft_empty_le_one {l : Loc} :
    ∀ gs : List Grid, Consec cellStepOK gs → timesLeft l EMPTY gs ≤ 1
  | [], _ => by rw [timesLeft]; omega
  | [_], _ => by rw [timesLeft]; omega
  | g1 :: g2 :: rest, hc => by
    rw [timesLeft]
    by_cases hp : g1 l = EMPTY ∧ g2 l ≠ EMPTY
    · rw [if_pos hp, timesLeft_empty_zero (g2 :: rest) hc.2 fun g hg => by
        injection hg with hg
        rw [← hg]
        exact hp.2]
    · rw [if_neg hp]
      have h2 := @timesLeft_empty_le_one l (g2 :: rest) hc.2
      omega

/-! ### The single-step movement primitive -/

theorem adj_irrefl (a : Loc) : ¬Adj a a := by
  obtain ⟨a1, a2⟩ := a
  simp only [Adj, Prod.mk.injEq]
  omega

theorem gnc_aux_none {maze : Grid} {dimx dimy : Int} {loc : Loc}
    {keystate : Int → Bool} :
    ∀ {ks : List (Int × Direction)} {m2 : Grid},
      get_new_coordinates_aux maze dimx dimy loc keystate ks = (none, m2) →
      m2 = maze
  | [], m2, h => by
    rw [get_new_coordinates_aux] at h
    injection h with h1 h2
    exact h2.symm
  | (key, d) :: rest, m2, h => by
    rw [get_new_coordinates_aux] at h
    split at h
    · exact gnc_aux_none h
    · dsimp only at h
      split at h
      · injection h with h1 h2
        exact absurd h1 (by simp)
      · exact gnc_aux_none h

theorem gnc_aux_some {maze : Grid} {dimx dimy : Int} {loc : Loc}
    {keystate : Int → Bool} :
    ∀ {ks : List (Int × Direction)} {nl : Loc} {m2 : Grid},
      get_new_coordinates_aux maze dimx dimy loc keystate ks = (some nl, m2) →
      (∃ kd ∈ ks, nl = (loc.1 + kd.2.x, loc.2 + kd.2.y)) ∧
      inBounds dimx dimy nl ∧ maze nl ≠ OBSTACLE ∧
      m2 = update (update maze loc ON_PATH) nl ROBOT
  | [], nl, m2, h => by
    rw [get_new_coordinates_aux] at h
    injection h with h1 h2
    exact absurd h1 (by simp)
  | (key, d) :: rest, nl, m2, h => by
    rw [get_new_coordinates_aux] at h
    split at h
    · obtain ⟨⟨kd, hkd, hnl⟩, hrest⟩ := gnc_aux_some h
      exact ⟨⟨kd, List.mem_cons_of_mem _ hkd, hnl⟩, hrest⟩
    · dsimp only at h
      split at h
      · rename_i hcond
        injection h with h1 h2
        injection h1 with h1
        subst h1
        exact ⟨⟨(key, d), List.mem_cons_self _ _, rfl⟩, hcond.1, hcond.2, h2.symm⟩
      · obtain ⟨⟨kd, hkd, hnl⟩, hrest⟩ := gnc_aux_some h
        exact ⟨⟨kd, List.mem_cons_of_mem _ hkd, hnl⟩, hrest⟩

/-- Full specification of `Maze.get_new_coordinates`: when a move is
returned, the destination is adjacent, in-bounds and not an `OBSTACLE`
(only an `OBSTACLE` blocks), the old cell is set `ON_PATH`, the new cell
`ROBOT`, and nothing else changes; when no move is returned the grid is
unchanged. -/
theorem get_new_coordinates_spec (maze : Grid) (dimx dimy : Int) (loc : Loc)
    (keystate : Int → Bool) :
    (∀ nl m2, get_new_coordinates maze dimx dimy loc keystate = (some nl, m2) →
      Adj loc nl ∧ inBounds dimx dimy nl ∧ maze nl ≠ OBSTACLE ∧
      m2 nl = ROBOT ∧ m2 loc = ON_PATH ∧
      ∀ l, l ≠ nl → l ≠ loc → m2 l = maze l) ∧
    (∀ m2, get_new_coordinates maze dimx dimy loc keystate = (none, m2) →
      ∀ l, m2 l = maze l) := by
  constructor
  · intro nl m2 h
    obtain ⟨⟨kd, hkd, hnl⟩, hin, hobs, hm2⟩ := gnc_aux_some h
    have hadj : Adj loc nl := by
      apply (adj_iff_search_order loc nl).mpr
      refine ⟨kd.2, ?_, hnl⟩
      simp only [KEY_PRESS_DIRECTION, List.mem_cons, List.not_mem_nil, or_false] at hkd
      rcases hkd with rfl | rfl | rfl | rfl <;> decide
    have hne : nl ≠ loc := by
      intro e
      rw [e] at hadj
      exact adj_irrefl loc hadj
    refine ⟨hadj, hin, hobs, ?_, ?_, ?_⟩
    · rw [hm2, update_self]
    · rw [hm2, update_other _ _ (Ne.symm hne), update_self]
    · intro l hl1 hl2
      rw [hm2, update_other _ _ hl1, update_other _ _ hl2]
  · intro m2 h l
    rw [gnc_aux_none h]

/-! ### Concrete grids and draw streams used by the claims -/

/-- Draw stream alternating `0` (advance a row) and `1` (advance a column). -/
def rand01 : Nat → Rat := fun n => if n % 2 = 0 then 0 else 1

/-- Draw stream alternating `0` and `3/5`, all draws inside `[0, 1)`. -/
def rand06 : Nat → Rat := fun n => if n % 2 = 0 then 0 else Rat.divInt 3 5

/-- The 1×3 grid `[Empty, Obstacle, Empty]` of the spec's unsolvable-grid
scenario. -/
def gridEXE : Grid := fun l => if l = (0, 1) then OBSTACLE else EMPTY

/-- A 2×3 grid with a single obstacle at `(1, 1)`: the solver walks into
the dead end `(1, 0)`, backtracks to the origin, and then succeeds. -/
def grid23 : Grid := fun l => if l = (1, 1) then OBSTACLE else EMPTY

/-! ### The claims -/

/-- C1, counterexample: the claim fails at `width = height = 1`.  For any
seed the generated 1×1 grid has the origin `Empty`, yet `solve` does not
end in `Succeeded`: its first iteration dead-ends at the origin and pops
the empty backtracking stack (the `maze[0][0] == EXPLORED` check is only
reached after the pop), so the run errors instead. -/
theorem claim1_counterexample :
    (generate_and_solve 1 1 (Rat.divInt 1 2) (fun _ => 0) 1 2).map
        SolveResult.isStackError = some true ∧
      (generate_and_solve 1 1 (Rat.divInt 1 2) (fun _ => 0) 1 2).map
        SolveResult.isOk = some false := by
  constructor <;> decide

/-- C1, amended: for every `width ≥ 1`, `height ≥ 1` with `(width, height)
≠ (1, 1)`, every density and every draw stream whose generation walk
completes, `solve` on the generated grid terminates in the `Succeeded`
state, returning a found path (fuel `2·width·height` suffices). -/
theorem claim1_generated_maze_solvable {dimx dimy : Int} {density : Rat}
    {rand : Nat → Rat} {wfuel : Nat} {p : List Loc} {sfuel : Nat}
    (hx : 1 ≤ dimx) (hy : 1 ≤ dimy) (h11 : ¬(dimx = 1 ∧ dimy = 1))
    (hgen : generatedPath dimx dimy density rand wfuel = some p)
    (hfuel : 2 * (dimx.toNat * dimy.toNat) ≤ sfuel) :
    (generate_and_solve dimx dimy density rand wfuel sfuel).map SolveResult.isOk =
      some true := by
  obtain ⟨k, hw, hg⟩ := generate_maze_eq hgen
  rw [generate_and_solve, hg, Option.map_some', Option.map_some']
  dsimp only
  congr 1
  exact solve_succeeds hx hy (generated_cells dimx dimy density rand k p) h11
    (generated_emptyPath hx hy hw) hfuel

/-- C1, witness: a 2×2 maze generated from an alternating draw stream is
solved successfully. -/
theorem claim1_witness :
    (generate_and_solve 2 2 (Rat.divInt 1 2) rand01 10 8).map SolveResult.isOk =
      some true :=
  claim1_generated_maze_solvable (by decide) (by decide) (by decide)
    (show generatedPath 2 2 (Rat.divInt 1 2) rand01 10 =
      some [(0, 0), (1, 0), (1, 1)] by decide) (by decide)

/-- C2: on the 1×3 grid `[Empty, Obstacle, Empty]` the search does NOT
reach a `Failed` state returning an empty path: when the robot dead-ends
at the origin the code executes `self.path.pop()` on the empty stack
BEFORE the `maze[0][0] == EXPLORED` termination check runs, so the run
errors out (`stackError`) instead of returning a failed result. -/
theorem claim2_unsolvable_crashes :
    (solve 1 3 gridEXE ((2 * 1 * 3 : Int).toNat)).isStackError = true ∧
      (solve 1 3 gridEXE ((2 * 1 * 3 : Int).toNat)).pathOf = none := by
  constructor <;> decide

/-- C3, counterexample: in the (successful, normal) run on `grid23`, the
origin `(0, 0)` is marked `Occupied` (`ROBOT`) twice — once at the start
and once when the solver backtracks out of the dead end `(1, 0)` and the
popped cell is re-marked `ROBOT` by `self.maze[...] = ROBOT`. -/
theorem claim3_counterexample :
    timesMarked (0, 0) ROBOT (solveGrids 2 3 grid23 12) = 2 ∧
      (solve 2 3 grid23 12).isOk = true := by
  constructor <;> decide

/-- C3, amended: along the grid sequence of a run, no cell ever returns
to `Empty`; each cell leaves `Empty` (is newly occupied) at most once; and
every re-marking as `Occupied` hits a cell that was `Empty` (fresh
advance) or `OnPath` (backtracking), never any other state. -/
theorem claim3_empty_left_once {g0 : Grid} {dimx dimy : Int} {fuel : Nat}
    (hx : 1 ≤ dimx) (hy : 1 ≤ dimy)
    (hcells : ∀ l, g0 l = EMPTY ∨ g0 l = OBSTACLE)
    (horigin : g0 (0, 0) = EMPTY) :
    Consec cellStepOK (solveGrids dimx dimy g0 fuel) ∧
      ∀ l, timesLeft l EMPTY (solveGrids dimx dimy g0 fuel) ≤ 1 := by
  have hc := @solveGrids_consec g0 dimx dimy fuel hx hy hcells horigin
  exact ⟨hc, fun l => timesLeft_empty_le_one _ hc⟩

/-- C3, witness: the transition discipline on a concrete 2×2 run. -/
theorem claim3_witness :
    Consec cellStepOK (solveGrids 2 2 (fun _ => EMPTY) 8) ∧
      timesLeft (0, 0) EMPTY (solveGrids 2 2 (fun _ => EMPTY) 8) ≤ 1 :=
  ⟨(claim3_empty_left_once (by decide) (by decide) (fun _ => Or.inl rfl) rfl).1,
    (claim3_empty_left_once (by decide) (by decide) (fun _ => Or.inl rfl) rfl).2 (0, 0)⟩

/-- C4: whenever the search returns a path, the stack read bottom-to-top
(the reverse of the pushed list) starts at the origin, ends at the goal,
and is a sequence of pairwise orthogonally adjacent, in-bounds,
non-`Obstacle` cells with no duplicates. -/
theorem claim4_path_valid {g0 : Grid} {dimx dimy : Int} {fuel : Nat} {p : List Loc}
    (hx : 1 ≤ dimx) (hy : 1 ≤ dimy)
    (hcells : ∀ l, g0 l = EMPTY ∨ g0 l = OBSTACLE)
    (horigin : g0 (0, 0) = EMPTY)
    (hp : (solve dimx dimy g0 fuel).pathOf = some p) :
    p.reverse.head? = some (0, 0) ∧
    p.reverse.getLast? = some (dimx - 1, dimy - 1) ∧
    List.Chain' Adj p.reverse ∧ p.reverse.Nodup ∧
    ∀ l ∈ p.reverse, inBounds dimx dimy l ∧ g0 l ≠ OBSTACLE := by
  obtain ⟨m, hm⟩ := pathOf_ok hp
  obtain ⟨hhead, hlast, hchain, hnodup, hmem, -, -⟩ := solve_ok_facts hx hy hcells hm
  refine ⟨?_, ?_, ?_, ?_, ?_⟩
  · rw [List.head?_reverse]; exact hlast
  · rw [List.getLast?_reverse]; exact hhead
  · rw [List.chain'_reverse]
    exact hchain.imp fun _ _ hab => hab.symm
  · exact List.nodup_reverse.mpr hnodup
  · intro l hl
    rw [List.mem_reverse] at hl
    obtain ⟨hin, hg⟩ := hmem l hl
    refine ⟨hin, ?_⟩
    by_cases h0 : l = (0, 0)
    · rw [h0, horigin]; decide
    · rw [hg h0]; decide

/-- C4, witness: path validity at the 2×2 all-empty grid. -/
theorem claim4_witness :
    ([((1 : Int), (1 : Int)), (1, 0), (0, 0)] : List Loc).reverse.head? = some (0, 0) ∧
    ([((1 : Int), (1 : Int)), (1, 0), (0, 0)] : List Loc).reverse.getLast? =
      some ((2 : Int) - 1, (2 : Int) - 1) ∧
    List.Chain' Adj ([((1 : Int), (1 : Int)), (1, 0), (0, 0)] : List Loc).reverse ∧
    ([((1 : Int), (1 : Int)), (1, 0), (0, 0)] : List Loc).reverse.Nodup ∧
    (inBounds 2 2 ((0 : Int), (0 : Int)) ∧ (fun _ => EMPTY : Grid) (0, 0) ≠ OBSTACLE) := by
  have h := claim4_path_valid (by decide) (by decide) (fun _ => Or.inl rfl) rfl
    (show (solve 2 2 (fun _ => EMPTY) 8).pathOf =
      some [((1 : Int), (1 : Int)), (1, 0), (0, 0)] by decide)
  exact ⟨h.1, h.2.1, h.2.2.1, h.2.2.2.1, h.2.2.2.2 (0, 0) (by decide)⟩

/-- C5: the search directions: `SEARCH_ORDER` is exactly increasing-row,
increasing-column, decreasing-row, decreasing-column; `find_next_step`'s
scan takes the first offset in that order whose cell is in-bounds and
`Empty`; and on the 2×2 all-`Empty` grid the returned path, bottom-to-top,
is exactly `[(0,0), (1,0), (1,1)]`. -/
theorem claim5_search_order :
    SEARCH_ORDER = [⟨1, 0⟩, ⟨0, 1⟩, ⟨-1, 0⟩, ⟨0, -1⟩] ∧
    (∀ (maze : Grid) (dimx dimy : Int) (loc : Loc) (ds : List Direction),
      find_first maze dimx dimy loc ds =
        (ds.map fun d => ((loc.1 + d.x, loc.2 + d.y) : Loc)).find?
          fun nl => decide (inBounds dimx dimy nl ∧ maze nl = EMPTY)) ∧
    ((solve 2 2 (fun _ => EMPTY) 8).pathOf).map List.reverse =
      some [(0, 0), (1, 0), (1, 1)] := by
  refine ⟨rfl, ?_, by decide⟩
  intro maze dimx dimy loc ds
  induction ds with
  | nil => rfl
  | cons d rest ih =>
    rw [find_first, List.map_cons]
    by_cases hc : inBounds dimx dimy (loc.1 + d.x, loc.2 + d.y) ∧
        maze (loc.1 + d.x, loc.2 + d.y) = EMPTY
    · rw [if_pos hc]
      simp [List.find?, hc]
    · rw [if_neg hc]
      simp [List.find?, hc, ih]

/-- C6: whenever generation completes, the recorded guaranteed-path set
contains the origin and the goal, and every one of its cells is `Empty`
in the returned grid, overriding any obstacle draw. -/
theorem claim6_guaranteed_path_empty {dimx dimy : Int} {density : Rat}
    {rand : Nat → Rat} {fuel : Nat} {p : List Loc}
    (hx : 1 ≤ dimx) (hy : 1 ≤ dimy)
    (hgen : generatedPath dimx dimy density rand fuel = some p) :
    (0, 0) ∈ p ∧ (dimx - 1, dimy - 1) ∈ p ∧
      ∀ l ∈ p, generatedGridAt dimx dimy density rand fuel l = some EMPTY := by
  obtain ⟨k, hw, hg⟩ := generate_maze_eq hgen
  obtain ⟨hhead, hlast, -, -⟩ := walk_spec hx hy hw
  refine ⟨mem_of_head?_eq hhead, mem_of_getLast?_eq hlast, ?_⟩
  intro l hl
  rw [generatedGridAt, hg, Option.map_some']
  dsimp only
  rw [foldl_update_mem p _ l hl]

/-- C6, witness: the guaranteed path of a concrete 2×2 generation, at a
density of one half. -/
theorem claim6_witness :
    ((0 : Int), (0 : Int)) ∈ ([(0, 0), (1, 0), (1, 1)] : List Loc) ∧
    ((2 : Int) - 1, (2 : Int) - 1) ∈ ([(0, 0), (1, 0), (1, 1)] : List Loc) ∧
    generatedGridAt 2 2 (Rat.divInt 1 2) rand01 10 (1, 0) = some EMPTY := by
  have h := claim6_guaranteed_path_empty (by decide) (by decide)
    (show generatedPath 2 2 (Rat.divInt 1 2) rand01 10 =
      some [(0, 0), (1, 0), (1, 1)] by decide)
  exact ⟨h.1, h.2.1, h.2.2 (1, 0) (by decide)⟩

/-- C7, counterexample: a call with `density = 2` (outside `[0, 1]`) does
NOT report an invalid-argument failure: generation completes normally and
returns a grid — the code performs no argument validation at all. -/
theorem claim7_counterexample :
    generatedPath 1 1 2 (fun _ => 0) 1 = some [(0, 0)] ∧
      generatedGridAt 1 1 2 (fun _ => 0) 1 (0, 0) = some EMPTY := by
  constructor <;> decide

/-- C7, amended: generation never reports any failure.  With a
non-positive width or height the guaranteed-path walk exhausts any step
budget without completing (the Python loop hangs); with `density ≥ 1` it
completes normally and every in-bounds cell off the guaranteed path is an
`Obstacle`; with `density ≤ 0` it completes normally and every cell is
`Empty`. -/
theorem claim7_no_validation {dimx dimy : Int} {density : Rat} {rand : Nat → Rat} :
    (dimx ≤ 0 ∨ dimy ≤ 0 → ∀ fuel, generate_maze dimx dimy density rand fuel = none) ∧
    (1 ≤ density → (∀ n, 0 ≤ rand n ∧ rand n < 1) →
      ∀ fuel p, generatedPath dimx dimy density rand fuel = some p →
        ∀ l, inBounds dimx dimy l → l ∉ p →
          generatedGridAt dimx dimy density rand fuel l = some OBSTACLE) ∧
    (density ≤ 0 → (∀ n, 0 ≤ rand n) →
      ∀ fuel p, generatedPath dimx dimy density rand fuel = some p →
        ∀ l, generatedGridAt dimx dimy density rand fuel l = some EMPTY) := by
  refine ⟨?_, ?_, ?_⟩
  · intro hd fuel
    rw [generate_maze, walk,
      walkLoop_none_of_nonpos hd fuel 0 0 0 _ (le_refl 0) (le_refl 0)]
  · intro hdens hrand fuel p hgen l hin hnp
    obtain ⟨k, hw, hg⟩ := generate_maze_eq hgen
    rw [generatedGridAt, hg, Option.map_some']
    dsimp only
    rw [foldl_update_not_mem p _ l hnp]
    rw [obstacleGrid, if_pos ⟨hin, lt_of_lt_of_le (hrand _).2 hdens⟩]
  · intro hdens hrand fuel p hgen l
    obtain ⟨k, hw, hg⟩ := generate_maze_eq hgen
    rw [generatedGridAt, hg, Option.map_some']
    dsimp only
    by_cases hm : l ∈ p
    · rw [foldl_update_mem p _ l hm]
    · rw [foldl_update_not_mem p _ l hm, obstacleGrid, if_neg]
      rintro ⟨-, hlt⟩
      exact absurd (lt_of_le_of_lt (hrand _) (lt_of_lt_of_le hlt hdens))
        (lt_irrefl 0)

/-- C7, witness: the three amended behaviors at concrete inputs — a
zero-width call burns 5 fuel without finishing; a `density = 2` call
makes the off-path cell `(0, 1)` an obstacle; a `density = -1` call makes
every cell empty. -/
theorem claim7_witness :
    generate_maze 0 3 (Rat.divInt 1 2) (fun _ => 0) 5 = none ∧
    generatedGridAt 2 2 2 rand06 10 (0, 1) = some OBSTACLE ∧
    generatedGridAt 1 1 (-1) (fun _ => 0) 1 (5, 5) = some EMPTY := by
  refine ⟨?_, ?_, ?_⟩
  · exact (claim7_no_validation).1 (Or.inl (by norm_num)) 5
  · exact (claim7_no_validation).2.1 (by decide)
      (fun n => by unfold rand06; constructor <;> split <;> decide) 10
      [(0, 0), (1, 0), (1, 1)] (by decide) (0, 1) (by decide) (by decide)
  · exact (claim7_no_validation).2.2 (by decide) (fun n => le_refl 0) 1
      [(0, 0)] (by decide) (5, 5)

/-- C8: on every fresh `dimx × dimy` grid of `Empty`/`Obstacle` cells
(`dimx, dimy ≥ 1`), the solve loop finishes within `2·dimx·dimy`
iterations — each iteration is one advancing or one backtracking
transition, and with that much fuel the loop never runs out. -/
theorem claim8_bounded_termination {g0 : Grid} {dimx dimy : Int}
    (hx : 1 ≤ dimx) (hy : 1 ≤ dimy)
    (hcells : ∀ l, g0 l = EMPTY ∨ g0 l = OBSTACLE) :
    (solve dimx dimy g0 (2 * dimx * dimy).toNat).isOutOfFuel = false :=
  solve_terminates_bounded hx hy hcells

/-- C8, witness: the bound at the concrete 2×2 all-empty grid. -/
theorem claim8_witness :
    (solve 2 2 (fun _ => EMPTY) ((2 * 2 * 2 : Int).toNat)).isOutOfFuel = false :=
  claim8_bounded_termination (by decide) (by decide) (fun _ => Or.inl rfl)

/-- C9, counterexample: after the search terminates successfully on the
1×2 all-empty grid, the goal cell is still `Occupied` (`ROBOT`), not
`OnPath` — so the number of `Occupied` cells after termination is one,
not zero, and the final path is not entirely rendered `OnPath`. -/
theorem claim9_counterexample :
    (solve 1 2 (fun _ => EMPTY) 4).mazeAt (0, 1) = some ROBOT ∧
      (solve 1 2 (fun _ => EMPTY) 4).isOk = true := by
  constructor <;> decide

/-- C9, amended: at every loop boundary of the active search the robot's
current cell is the unique `Occupied` cell; after successful termination
exactly one cell — the goal — remains `Occupied`, and every other cell of
the returned path is `OnPath`. -/
theorem claim9_occupied_unique {g0 : Grid} {dimx dimy : Int} {fuel : Nat}
    (hx : 1 ≤ dimx) (hy : 1 ≤ dimy)
    (hcells : ∀ l, g0 l = EMPTY ∨ g0 l = OBSTACLE) :
    (∀ st ∈ (solveTrace dimx dimy fuel (initState g0)).dropLast,
      ∀ l, st.maze l = ROBOT ↔ l = st.location) ∧
    (∀ p m, solveLoop dimx dimy fuel (initState g0) = .ok p m →
      (∀ l, m l = ROBOT ↔ l = (dimx - 1, dimy - 1)) ∧
      ∀ l ∈ p, l ≠ (dimx - 1, dimy - 1) → m l = ON_PATH) := by
  constructor
  · exact solveTrace_active_robot fuel _ (inv_init hx hy hcells)
  · intro p m hm
    obtain ⟨-, -, -, -, -, hrob, hop⟩ := solve_ok_facts hx hy hcells hm
    exact ⟨hrob, hop⟩

/-- C9, witness: on the solved 1×2 grid the non-goal path cell `(0, 0)`
ends up `OnPath`. -/
theorem claim9_witness :
    (solve 1 2 (fun _ => EMPTY) 4).mazeAt (0, 0) = some ON_PATH := by
  obtain ⟨m, hm⟩ := pathOf_ok (show (solve 1 2 (fun _ => EMPTY) 4).pathOf =
    some [((0 : Int), (1 : Int)), (0, 0)] by decide)
  have h2 := (claim9_occupied_unique (by decide) (by decide)
    (fun _ => Or.inl rfl)).2 _ m hm
  have h3 : m (0, 0) = ON_PATH := h2.2 (0, 0) (by decide) (by decide)
  rw [show solve 1 2 (fun _ => EMPTY) 4 =
    SolveResult.ok [((0 : Int), (1 : Int)), (0, 0)] m from hm]
  rw [SolveResult.mazeAt, SolveResult.mazeOf, Option.map_some', h3]

/-- C10: frame effect of the single-step movement primitive
`get_new_coordinates`: when it returns a new location, the destination is
orthogonally adjacent, in-bounds and not an `Obstacle` (only an
`Obstacle` blocks), the previous cell is set `OnPath`, the destination is
set `Occupied`, and every other cell keeps its value; when it signals no
move, the grid is left completely unchanged. -/
theorem claim10_move_frame (maze : Grid) (dimx dimy : Int) (loc : Loc)
    (keystate : Int → Bool) :
    (∀ nl m2, get_new_coordinates maze dimx dimy loc keystate = (some nl, m2) →
      Adj loc nl ∧ inBounds dimx dimy nl ∧ maze nl ≠ OBSTACLE ∧
      m2 nl = ROBOT ∧ m2 loc = ON_PATH ∧
      ∀ l, l ≠ nl → l ≠ loc → m2 l = maze l) ∧
    (∀ m2, get_new_coordinates maze dimx dimy loc keystate = (none, m2) →
      ∀ l, m2 l = maze l) :=
  get_new_coordinates_spec maze dimx dimy loc keystate

/-- C10, witness: pressing right from `(1, 1)` on an empty 3×3 grid moves
to `(1, 2)`, marking the two cells and leaving `(0, 0)` untouched; a
blocked move on `gridEXE` leaves the grid unchanged. -/
theorem claim10_witness :
    ((get_new_coordinates (fun _ => EMPTY) 3 3 (1, 1) fun k => k == K_RIGHT).2) (1, 2) =
      ROBOT ∧
    ((get_new_coordinates (fun _ => EMPTY) 3 3 (1, 1) fun k => k == K_RIGHT).2) (1, 1) =
      ON_PATH ∧
    ((get_new_coordinates (fun _ => EMPTY) 3 3 (1, 1) fun k => k == K_RIGHT).2) (0, 0) =
      EMPTY ∧
    ((get_new_coordinates gridEXE 1 3 (0, 0) fun k => k == K_RIGHT).2) (0, 1) =
      OBSTACLE := by
  have h1 := (claim10_move_frame (fun _ => EMPTY) 3 3 (1, 1) fun k => k == K_RIGHT).1
    (1, 2) ((get_new_coordinates (fun _ => EMPTY) 3 3 (1, 1) fun k => k == K_RIGHT).2)
    rfl
  have h2 := (claim10_move_frame gridEXE 1 3 (0, 0) fun k => k == K_RIGHT).2
    ((get_new_coordinates gridEXE 1 3 (0, 0) fun k => k == K_RIGHT).2) rfl
  refine ⟨h1.2.2.2.1, h1.2.2.2.2.1, ?_, ?_⟩
  · exact h1.2.2.2.2.2 (0, 0) (by decide) (by decide)
  · have h3 := h2 (0, 1)
    rw [h3]
    rfl

end PyMaze
